import Mathlib

/-!
The package httpclient: request builder, single attempt and retry loop.

A shallow embedding of `httpclient.go` and `log.go`.

* Go `string` and `[]byte` contents are both modelled by `String`; a nil
  slice, nil reader, nil map or nil pointer is `none`.
* Go `int` and `time.Duration` are 64 bit signed integers: they are modelled by
  `Int` with an explicit wrap-around (`wrapInt64`) at every arithmetic step.
* A Go map is an association list with unique keys (`AList`); the order of its
  entries stands for one of the possible iteration orders of the map.
* The standard library (request validation, header canonicalisation, query
  encoding, JSON, multipart, float formatting) is a parameter, `Env`; the
  behaviour of the transport during one execution is a parameter, `Transport`.
* A run-time panic (write to a nil map, nil pointer dereference) is an explicit
  outcome.
-/

namespace Httpclient

/-! ## Machine integers -/

/-- Two's complement wrap-around of a mathematical integer to 64 bits. -/
def wrapInt64 (x : Int) : Int := (x + 2 ^ 63) % 2 ^ 64 - 2 ^ 63

/-- The values of a Go `int` (64 bit). -/
def InInt64 (x : Int) : Prop := -(2 ^ 63) ≤ x ∧ x < 2 ^ 63

instance (x : Int) : Decidable (InInt64 x) := by unfold InInt64; infer_instance

/-- The constant `time.Millisecond`, in nanoseconds. -/
def Millisecond : Int := 1000000

/-- The constant `http.StatusOK`. -/
def StatusOK : Int := 200

/-! ## Data model -/

/-- A Go `map[string]V`. -/
abbrev GoMap (V : Type) := AList (fun _ : String => V)

/-- Go `error` values: the package sentinel `Not200` and errors produced by
the standard library (identified by their message). -/
inductive Error where
  | Not200
  | ext (msg : String)
  deriving DecidableEq, Repr

/-- A non-nil `Logger` interface value: the process-wide logger returned by
`DefaultLog`, or a logger supplied by the caller. The field of a request that
holds it is optional, `none` being the nil interface value `WithLog(nil)`
stores. -/
inductive Logger where
  | standard
  | custom (id : Nat)
  deriving DecidableEq, Repr

/-- `DefaultLog` of log.go. -/
def DefaultLog : Logger := Logger.standard

/-- An in-memory `io.Reader` (`bytes.Buffer`, `strings.Reader`): its state is
the content that has not been read yet. -/
structure Reader where
  unread : String
  deriving DecidableEq, Repr

/-- Reading `n` bytes from a reader advances it. -/
def Reader.advance (rd : Reader) (n : Nat) : Reader := ⟨rd.unread.drop n⟩

/-- `bytes.NewBuffer` (a nil slice gives an empty buffer). -/
def NewBuffer (b : Option String) : Reader := ⟨b.getD ""⟩

/-- `strings.NewReader`. -/
def NewReader (s : String) : Reader := ⟨s⟩

/-- The fields of `http.Client` the package uses. -/
structure Client where
  Timeout : Int
  deriving DecidableEq, Repr

/-- What `io.ReadAll` of a response body yields: the bytes, or the error of the
failed read. -/
inductive ReadResult where
  | bytes (b : String)
  | failed (e : Error)
  deriving DecidableEq, Repr

/-- An `http.Response`: its status code and the outcome of reading its body. -/
structure Response where
  StatusCode : Int
  Body : ReadResult
  deriving DecidableEq, Repr

/-- The struct `Request`. -/
structure Request where
  method : String
  url : String
  body : Option Reader
  header : Option (GoMap String)
  query : Option (GoMap String)
  retry : Int
  client : Option Client
  response : Option Response
  logger : Option Logger

/-- The transport-level request handed to `client.Do`. -/
structure WireRequest where
  Method : String
  URL : String
  Header : List (String × List String)
  Body : Option String
  deriving DecidableEq, Repr

/-- The result of one call of `client.Do`: an error or a response, together
with the number of bytes the transport read from the request body stream. -/
inductive DoResult where
  | failed (e : Error) (bodyRead : Nat)
  | response (resp : Response) (bodyRead : Nat)
  deriving DecidableEq, Repr

/-- The behaviour of the transport during one execution: the result of
`client.Do` in the attempt with the given index (from 0), for the given client
settings and transport-level request. -/
abbrev Transport := Nat → Client → WireRequest → DoResult

/-- Go values of type `any`, as far as `ConvertString` and `json.Marshal`
tell them apart. A `float64` is given by its bit pattern. -/
inductive AnyVal where
  | string (s : String)
  | int (i : Int)
  | int64 (i : Int)
  | number (s : String)
  | float64 (bits : Nat)
  | bool (b : Bool)
  | null
  | other (desc : String)
  deriving DecidableEq, Repr

/-- Modelled from the spec: the struct `UploadFile` is declared outside the
given sources; it describes one file part by field name, file name and a
readable byte stream. -/
structure UploadFile where
  Field : String
  FileName : String
  File : Reader
  deriving DecidableEq, Repr

/-- The standard-library functions the package calls. -/
structure Env where
  /-- The error of `http.NewRequest` for a method and a URL, if any. -/
  NewRequestErr : String → String → Option Error
  /-- The canonical form `http.Header.Add` gives a header key. -/
  CanonicalKey : String → String
  /-- The URL after `query := URL.Query(); query.Add(k, v); URL.RawQuery = query.Encode()`. -/
  AddQuery : String → String → String → String
  /-- The function `json.Marshal`. -/
  Marshal : AnyVal → Except Error String
  /-- The function `strconv.FormatFloat(value, 'f', -1, 64)`. -/
  FormatFloat : Nat → String
  /-- The bytes of a file part written by `CreateFormFile` and `io.Copy`, for
  the boundary of the writer, the field name, the file name and the content. -/
  FormFilePart : String → String → String → String → String
  /-- The bytes written by `WriteField`, for the boundary, the key and the value. -/
  FieldPart : String → String → String → String
  /-- The bytes written by `Close` of the multipart writer, for its boundary. -/
  ClosingPart : String → String
  /-- The value of `FormDataContentType`, for the boundary of the writer. -/
  FormDataContentType : String → String

/-- What one execution does, in order. -/
inductive Event where
  /-- One call of the closure `do`, with the request it handed to `client.Do`
  (`none` when building the request failed). -/
  | attempt (sent : Option WireRequest)
  /-- One call of `logger.Error`. -/
  | log (logger : Logger) (msg : String)
  /-- One call of `time.Sleep`, with its argument in nanoseconds. -/
  | sleep (d : Int)
  deriving DecidableEq, Repr

/-! ## Request builder -/

/-- The type `HTTPOption`: a mutation of the request; `none` is a run-time
panic. -/
abbrev HTTPOption := Request → Option Request

/-- The loop `for _, option := range opt { option(r) }`. -/
def applyOptions (r : Request) : List HTTPOption → Option Request
  | [] => some r
  | option :: opt => (option r).bind fun r1 => applyOptions r1 opt

/-- The function `NewHttpRequest`. -/
def NewHttpRequest (m : String) (url : String) (opt : List HTTPOption) : Option Request :=
  let r : Request :=
    { method := m
      url := url
      body := none
      header := some ∅
      query := some ∅
      retry := 0
      client := some ⟨0⟩
      response := none
      logger := some DefaultLog }
  applyOptions r opt

/-- The method `With`. -/
def Request.With (r : Request) (opt : List HTTPOption) : Option Request :=
  applyOptions r opt

/-- The method `GetResponse`. -/
def Request.GetResponse (r : Request) : Option Response := r.response

/-- The assignment `r.header[key] = val`; it panics on a nil map. -/
def setHeader (r : Request) (key val : String) : Option Request :=
  match r.header with
  | none => none
  | some h => some { r with header := some (h.insert key val) }

/-- The option `WithLog`; it stores a nil logger as it is. -/
def WithLog (logger : Option Logger) : HTTPOption :=
  fun r => some { r with logger := logger }

/-- The option `WithQuery`. -/
def WithQuery (query : Option (GoMap String)) : HTTPOption :=
  fun r => some { r with query := query }

/-- The option `WithTimeout`; it panics on a nil client. -/
def WithTimeout (d : Int) : HTTPOption :=
  fun r =>
    match r.client with
    | none => none
    | some c => some { r with client := some { c with Timeout := d } }

/-- The option `WithRetry`. -/
def WithRetry (retryTime : Int) : HTTPOption :=
  fun r => some { r with retry := retryTime }

/-- The option `WithJson`: the error of `json.Marshal` is dropped. -/
def WithJson (env : Env) (body : AnyVal) : HTTPOption :=
  fun r =>
    let marshal : Option String :=
      match env.Marshal body with
      | .ok b => some b
      | .error _ => none
    setHeader { r with body := some (NewBuffer marshal) }
      "Content-Type" "application/json;charset=UTF-8"

/-- The function `strconv.Itoa`. -/
def Itoa (i : Int) : String := toString i

/-- The function `ConvertString`. -/
def ConvertString (env : Env) (value : AnyVal) : String :=
  match value with
  | .string value => value
  | .int value => Itoa value
  | .int64 value => Itoa (wrapInt64 value)
  | .number value => value
  | .float64 value => env.FormatFloat value
  | _ => ""

/-- The function `Map2Str`. -/
def Map2Str (env : Env) (m : Option (GoMap AnyVal)) : String :=
  let strArr : List String :=
    match m with
    | none => []
    | some m => m.entries.map fun e => e.1 ++ "=" ++ ConvertString env e.2
  "&".intercalate strArr

/-- The option `WithFromData`. -/
def WithFromData (env : Env) (body : Option (GoMap AnyVal)) : HTTPOption :=
  fun r =>
    setHeader { r with body := some (NewReader (Map2Str env body)) }
      "Content-Type" "application/x-www-form-urlencoded;charset=UTF-8"

/-- The multipart body `WithMultipartFrom` builds before it returns its
option; `boundary` is the random boundary `multipart.NewWriter` picks. -/
def multipartBody (env : Env) (boundary : String) (file : Option UploadFile)
    (fromData : Option (GoMap String)) : String :=
  let filePart : String :=
    match file with
    | none => ""
    | some f => env.FormFilePart boundary f.Field f.FileName f.File.unread
  let fields : List String :=
    match fromData with
    | none => []
    | some m => m.entries.map fun e => env.FieldPart boundary e.1 e.2
  filePart ++ String.join fields ++ env.ClosingPart boundary

/-- The option `WithHeader`. -/
def WithHeader (key val : String) : HTTPOption :=
  fun r => setHeader r key val

/-- The option `WithMultipartFrom`; `boundary` is the random boundary its
multipart writer picks. -/
def WithMultipartFrom (env : Env) (boundary : String) (file : Option UploadFile)
    (fromData : Option (GoMap String)) : HTTPOption :=
  let body : Reader := ⟨multipartBody env boundary file fromData⟩
  fun r =>
    setHeader { r with body := some body } "Content-Type" (env.FormDataContentType boundary)

/-! ## Request executor -/

/-- The method `http.Header.Add`: the value is appended under the canonical
form of the key. -/
def headerAdd (env : Env) (h : List (String × List String)) (k v : String) :
    List (String × List String) :=
  let key := env.CanonicalKey k
  if h.any (fun e => e.1 = key) then
    h.map fun e => if e.1 = key then (e.1, e.2 ++ [v]) else e
  else h ++ [(key, [v])]

/-- The loop `for k, v := range r.header { request.Header.Add(k, v) }`; a nil
map has no entries. -/
def buildHeader (env : Env) (header : Option (GoMap String)) : List (String × List String) :=
  match header with
  | none => []
  | some h => h.entries.foldl (fun acc e => headerAdd env acc e.1 e.2) []

/-- The query loop of `do`, guarded by `r.query != nil && len(r.query) > 0`. -/
def buildURL (env : Env) (url : String) (query : Option (GoMap String)) : String :=
  match query with
  | none => url
  | some q =>
    if q.entries.length > 0 then
      q.entries.foldl (fun u e => env.AddQuery u e.1 e.2) url
    else url

/-- The transport-level request `do` builds from the request. -/
def buildRequest (env : Env) (r : Request) : WireRequest :=
  { Method := r.method
    URL := buildURL env r.url r.query
    Header := buildHeader env r.header
    Body := r.body.map Reader.unread }

/-- What one call of the closure `do` yields: its two results, the request
after the call and the transport-level request it sent, if any. -/
structure Attempt where
  res : Option String
  err : Option Error
  req : Request
  sent : Option WireRequest

/-- The closure `do` of `DoHttpRequest`, in the attempt with index `i`; `none`
is the panic of `r.client.Do` on a nil client. -/
def doAttempt (env : Env) (tr : Transport) (i : Nat) (r : Request) : Option Attempt :=
  match env.NewRequestErr r.method r.url with
  | some err => some ⟨none, some err, r, none⟩
  | none =>
    let request := buildRequest env r
    match r.client with
    | none => none
    | some client =>
      match tr i client request with
      | .failed err n =>
        some ⟨none, some err, { r with body := r.body.map (Reader.advance · n) }, some request⟩
      | .response response n =>
        let r1 : Request :=
          { r with body := r.body.map (Reader.advance · n), response := some response }
        if response.StatusCode ≠ StatusOK then
          some ⟨none, some Error.Not200, r1, some request⟩
        else
          match response.Body with
          | .failed err => some ⟨none, some err, r1, some request⟩
          | .bytes resp => some ⟨some resp, none, r1, some request⟩

/-- How an execution ends. -/
inductive Outcome where
  | returned (res : Option String) (err : Option Error)
  | panicked
  deriving DecidableEq, Repr

/-- One execution: the request afterwards, what happened, and how it ended. -/
structure Exec where
  req : Request
  trace : List Event
  out : Outcome

/-- The message of the retry with number `localRetry`. -/
def retryMessage (url : String) (localRetry : Int) : String :=
  "请求[" ++ url ++ "]失败,进行" ++ toString localRetry ++ "次重试..."

/-- The argument of `time.Sleep` in the retry with number `localRetry`:
`time.Duration(200*localRetry) * time.Millisecond`. -/
def backoff (localRetry : Int) : Int :=
  wrapInt64 (wrapInt64 (200 * localRetry) * Millisecond)

/-- The loop of `DoHttpRequest`, from the attempt with index `i` on, with at
most `fuel` attempts; `none` when the loop is still running after them. The
call `r.logger.Error` panics on a nil logger, after the attempt and the
increment of the counter. -/
def retryLoop (env : Env) (tr : Transport) :
    Nat → Nat → Int → Request → Option Exec
  | 0, _, _, _ => none
  | fuel + 1, i, localRetry, r =>
    match doAttempt env tr i r with
    | none => some ⟨r, [], .panicked⟩
    | some a =>
      if a.err = none then
        some ⟨a.req, [.attempt a.sent], .returned a.res none⟩
      else if localRetry = a.req.retry then
        some ⟨a.req, [.attempt a.sent], .returned a.res a.err⟩
      else
        let localRetry := wrapInt64 (localRetry + 1)
        match a.req.logger with
        | none => some ⟨a.req, [.attempt a.sent], .panicked⟩
        | some logger =>
          (retryLoop env tr fuel (i + 1) localRetry a.req).map fun e =>
            { e with
              trace :=
                .attempt a.sent :: .log logger (retryMessage a.req.url localRetry) ::
                  .sleep (backoff localRetry) :: e.trace }

/-- The method `DoHttpRequest`, run for at most `fuel` attempts. -/
def Request.DoHttpRequest (env : Env) (tr : Transport) (fuel : Nat) (r : Request) :
    Option Exec :=
  retryLoop env tr fuel 0 0 r

/-- The number of attempts in a trace. -/
def attempts (t : List Event) : Nat :=
  t.countP fun e => match e with | .attempt _ => true | _ => false

/-- The log messages of a trace, in order, each with the logger it went to. -/
def logs (t : List Event) : List (Logger × String) :=
  t.filterMap fun e => match e with | .log l m => some (l, m) | _ => none

/-- The arguments of the sleeps of a trace, in order. -/
def sleeps (t : List Event) : List Int :=
  t.filterMap fun e => match e with | .sleep d => some d | _ => none

/-- The transport-level requests of a trace, in order. -/
def sent (t : List Event) : List WireRequest :=
  t.filterMap fun e => match e with | .attempt (some w) => some w | _ => none

/-! ## The course of an execution -/

/-- The request after the first `j` attempts of an execution that started
from `r`. -/
def stateAfter (env : Env) (tr : Transport) (r : Request) : Nat → Request
  | 0 => r
  | j + 1 =>
    match doAttempt env tr j (stateAfter env tr r j) with
    | some a => a.req
    | none => stateAfter env tr r j

/-- The attempt with index `j` of an execution that started from `r`. -/
def attemptAt (env : Env) (tr : Transport) (r : Request) (j : Nat) : Option Attempt :=
  doAttempt env tr j (stateAfter env tr r j)

/-- The transport-level request of the attempt with index `j`, if it sent one. -/
def sentAt (env : Env) (tr : Transport) (r : Request) (j : Nat) : Option WireRequest :=
  (attemptAt env tr r j).bind Attempt.sent

/-- The events of the first `k` attempts when each of them is followed by a
retry that logs to the logger `l`: attempt, log message, sleep. -/
def retryPrefix (env : Env) (tr : Transport) (r : Request) (l : Logger) : Nat → List Event
  | 0 => []
  | k + 1 =>
    retryPrefix env tr r l k ++
      [.attempt (sentAt env tr r k), .log l (retryMessage r.url ((k : Int) + 1)),
        .sleep (backoff ((k : Int) + 1))]

/-- The response the transport produced in the attempt with index `j` of an
execution that started from `r`, if it produced one. -/
def responseAt (env : Env) (tr : Transport) (r : Request) (j : Nat) : Option Response :=
  let s := stateAfter env tr r j
  match env.NewRequestErr s.method s.url, s.client with
  | none, some c =>
    match tr j c (buildRequest env s) with
    | .response resp _ => some resp
    | .failed _ _ => none
  | _, _ => none

/-- The response of the most recent of the first `k` attempts in which the
transport produced a response; the handle the request held before the
execution when there is no such attempt. -/
def lastResponse (env : Env) (tr : Transport) (r : Request) : Nat → Option Response
  | 0 => r.response
  | k + 1 =>
    match responseAt env tr r k with
    | some resp => some resp
    | none => lastResponse env tr r k

/-- The options the package provides. -/
inductive ProvidedOption (env : Env) : HTTPOption → Prop where
  | withLog (logger : Option Logger) : ProvidedOption env (WithLog logger)
  | withQuery (query : Option (GoMap String)) : ProvidedOption env (WithQuery query)
  | withTimeout (d : Int) : ProvidedOption env (WithTimeout d)
  | withRetry (retryTime : Int) : ProvidedOption env (WithRetry retryTime)
  | withJson (body : AnyVal) : ProvidedOption env (WithJson env body)
  | withFromData (body : Option (GoMap AnyVal)) : ProvidedOption env (WithFromData env body)
  | withHeader (key val : String) : ProvidedOption env (WithHeader key val)
  | withMultipartFrom (boundary : String) (file : Option UploadFile)
      (fromData : Option (GoMap String)) :
      ProvidedOption env (WithMultipartFrom env boundary file fromData)

/-- The values of the entries of a header mapping whose key has the canonical
form `K`, in iteration order. -/
def valuesFor (env : Env) (K : String) (entries : List (Σ _ : String, String)) : List String :=
  entries.filterMap fun e => if env.CanonicalKey e.1 = K then some e.2 else none

/-- A result of `client.Do` that makes the attempt fail: a transport error, a
status other than 200, or a response whose body cannot be read. -/
def DoResult.Fails : DoResult → Prop
  | .failed _ _ => True
  | .response resp _ => resp.StatusCode ≠ StatusOK ∨ ∃ e, resp.Body = .failed e

/-- The requests that differ from `r` at most in the state of the body stream
and in the retained response. -/
def SameConfig (r r1 : Request) : Prop :=
  r1.method = r.method ∧ r1.url = r.url ∧ r1.header = r.header ∧ r1.query = r.query ∧
    r1.retry = r.retry ∧ r1.client = r.client ∧ r1.logger = r.logger

/-- The time an execution spends in `time.Sleep`, in nanoseconds: a call with
a negative or zero argument returns at once. -/
def totalDelay (t : List Event) : Int :=
  ((sleeps t).map fun d => max d 0).sum

/-- The largest retry number whose backoff `200ms × i` fits a `time.Duration`. -/
def maxBackoffRetry : Nat := 46116860184

/-- The options that set the body: `WithJson`, `WithFromData` and
`WithMultipartFrom`. -/
inductive BodyOption (env : Env) : HTTPOption → Prop where
  | withJson (body : AnyVal) : BodyOption env (WithJson env body)
  | withFromData (body : Option (GoMap AnyVal)) : BodyOption env (WithFromData env body)
  | withMultipartFrom (boundary : String) (file : Option UploadFile)
      (fromData : Option (GoMap String)) :
      BodyOption env (WithMultipartFrom env boundary file fromData)

/-- The events of the first `k` attempts when each of them is followed by a
retry that logs to the logger `l`, with the retry counter wrapped to 64 bits. -/
def retryPrefixWrapped (env : Env) (tr : Transport) (r : Request) (l : Logger) :
    Nat → List Event
  | 0 => []
  | k + 1 =>
    retryPrefixWrapped env tr r l k ++
      [.attempt (sentAt env tr r k),
        .log l (retryMessage r.url (wrapInt64 ((k : Int) + 1))),
        .sleep (backoff (wrapInt64 ((k : Int) + 1)))]

/-! ## Parsing a decimal integer -/

/-- The value of a decimal digit. -/
def digitVal (c : Char) : Option Nat :=
  if c.isDigit then some (c.toNat - '0'.toNat) else none

/-- The number written by a text of decimal digits, from the left; `none` when
a character is not a digit. -/
def parseDigits (cs : List Char) : Option Nat :=
  cs.foldl
    (fun acc c =>
      match acc, digitVal c with
      | some a, some d => some (a * 10 + d)
      | _, _ => none)
    (some 0)

/-- Parsing a decimal integer: an optional minus sign followed by one or more
decimal digits. -/
def parseDecimal (s : String) : Option Int :=
  match s.data with
  | [] => none
  | '-' :: ds => if ds = [] then none else (parseDigits ds).map fun n => -(n : Int)
  | ds => (parseDigits ds).map fun n => (n : Int)

/-! ## Decoding a form body -/

/-- The function `strings.Cut` for a separator of one character: the text
before the first separator and the text after it (all of the text and nothing
when there is no separator). -/
def cutAt (sep : Char) : List Char → List Char × List Char
  | [] => ([], [])
  | c :: cs => if c = sep then ([], cs) else ((c :: (cutAt sep cs).1), (cutAt sep cs).2)

/-- The pieces of a text between the occurrences of a separator. -/
def splitOnChar (sep : Char) : List Char → List (List Char)
  | [] => [[]]
  | c :: cs =>
    if c = sep then [] :: splitOnChar sep cs
    else
      match splitOnChar sep cs with
      | [] => [[c]]
      | seg :: rest => (c :: seg) :: rest

/-- The characters the form encoding gives a meaning to. -/
def isSpecial (c : Char) : Bool :=
  c = '&' || c = '=' || c = '%' || c = '+' || c = ';'

/-- The function `url.ParseQuery` on a query without `%`, `+` and `;` (nothing
to unescape): the pieces between `&` that are not empty, each cut at its first
`=`, in order. A query with one of these characters is outside this model. -/
def ParseQuery (query : String) : Option (List (String × String)) :=
  if query.data.any (fun c => c = '%' || c = '+' || c = ';') then none
  else
    some (((splitOnChar '&' query.data).filter fun seg => seg ≠ []).map fun seg =>
      (String.mk (cutAt '=' seg).1, String.mk (cutAt '=' seg).2))

/-- The characters of `strings.Join` of the given pieces with a separator of
one character. -/
def joinWith (sep : Char) : List (List Char) → List Char
  | [] => []
  | a :: rest => a ++ rest.foldr (fun x acc => sep :: (x ++ acc)) []

/-- The characters of the pair `key=value` that `Map2Str` writes. -/
def pairChars (p : String × String) : List Char := p.1.data ++ '=' :: p.2.data

/-- The mapping with the entries `a: 1` (an `int`) and `b: "x"`. -/
def sampleForm : GoMap AnyVal :=
  (AList.singleton "b" (AnyVal.string "x")).insert "a" (AnyVal.int 1)

/-- The mapping with the one entry `a: "1&b=2"`. -/
def ambiguousForm : GoMap AnyVal := AList.singleton "a" (AnyVal.string "1&b=2")

/-- The mapping with the entries `a: "1"` and `b: "2"`. -/
def plainForm : GoMap AnyVal :=
  (AList.singleton "b" (AnyVal.string "2")).insert "a" (AnyVal.string "1")

/-! ## Sample environment and transports -/

/-- Canonical header key of a key made of letters, digits and `-`: the first
letter and every letter after a `-` in upper case, the others in lower case. -/
def canonChars : Bool → List Char → List Char
  | _, [] => []
  | up, c :: cs => (if up then c.toUpper else c.toLower) :: canonChars (c = '-') cs

/-- A sample environment: the URL `":"` does not parse, query pairs are
appended to the URL, every value but a `float64` serialises to its description. -/
def sampleEnv : Env :=
  { NewRequestErr := fun _ url =>
      if url = ":" then some (.ext "parse \":\": missing protocol scheme") else none
    CanonicalKey := fun k => String.mk (canonChars true k.data)
    AddQuery := fun u k v => u ++ "&" ++ k ++ "=" ++ v
    Marshal := fun v =>
      match v with
      | .other d => .ok d
      | .string s => .ok ("\"" ++ s ++ "\"")
      | .int i => .ok (toString i)
      | .int64 i => .ok (toString i)
      | .number s => .ok s
      | .bool b => .ok (toString b)
      | .null => .ok "null"
      | .float64 _ => .error (.ext "json: unsupported value")
    FormatFloat := fun _ => "0"
    FormFilePart := fun b field name content =>
      "--" ++ b ++ ";" ++ field ++ ";" ++ name ++ ";" ++ content
    FieldPart := fun b k v => "--" ++ b ++ ";" ++ k ++ ";" ++ v
    ClosingPart := fun b => "--" ++ b ++ "--"
    FormDataContentType := fun b => "multipart/form-data; boundary=" ++ b }

/-- The JSON text of the object with the one member `a` of value 1. -/
def jsonA1 : String := "\x7b\"a\":1\x7d"

/-- The request `NewHttpRequest(POST, url, WithRetry(retry))` returns. -/
def sampleRequest (url : String) (retry : Int) : Request :=
  { method := "POST"
    url := url
    body := none
    header := some ∅
    query := some ∅
    retry := retry
    client := some ⟨0⟩
    response := none
    logger := some DefaultLog }

/-- The request `NewHttpRequest(POST, url, WithLog(nil), WithRetry(retry))`
returns. -/
def nilLoggerRequest (url : String) (retry : Int) : Request :=
  { sampleRequest url retry with logger := none }

/-- A transport whose every call fails with a network error after reading the
whole request body. -/
def alwaysFail : Transport :=
  fun _ _ w => .failed (.ext "dial tcp: connection refused") ((w.Body.getD "").length)

/-- A transport whose call in attempt `i` fails with the error `errs i`, after
reading the whole request body. -/
def failWith (errs : Nat → Error) : Transport :=
  fun i _ w => .failed (errs i) ((w.Body.getD "").length)

/-- A transport that answers every request with the given status and an
empty body, after reading the whole request body. -/
def alwaysStatus (code : Int) : Transport :=
  fun _ _ w => .response ⟨code, .bytes ""⟩ ((w.Body.getD "").length)

/-- A transport that fails with a network error in the attempts before the one
with index `k` and answers 200 with body `b` from then on. -/
def succeedAt (k : Nat) (b : String) : Transport :=
  fun i _ w =>
    if i < k then .failed (.ext "dial tcp: connection refused") ((w.Body.getD "").length)
    else .response ⟨200, .bytes b⟩ ((w.Body.getD "").length)

/-! ## Lemmas on machine integers -/

theorem wrapInt64_eq_self {x : Int} (h1 : -(2 ^ 63) ≤ x) (h2 : x < 2 ^ 63) : wrapInt64 x = x := by
  unfold wrapInt64
  rw [Int.emod_eq_of_lt (by omega) (by omega)]
  omega

theorem backoff_eq {i : Int} (h0 : 0 ≤ i) (h1 : i ≤ maxBackoffRetry) :
    backoff i = 200 * i * Millisecond := by
  unfold maxBackoffRetry at h1
  unfold backoff Millisecond
  have hin : wrapInt64 (200 * i) = 200 * i := wrapInt64_eq_self (by omega) (by omega)
  rw [hin, wrapInt64_eq_self (by omega) (by omega)]

theorem backoff_overflow : backoff ((maxBackoffRetry : Int) + 1) = -9223372036709551616 := by
  decide

theorem sum_linear_backoff (n : Nat) :
    ((List.range n).map fun (j : Nat) => 200 * ((j : Int) + 1) * Millisecond).sum =
      100 * Millisecond * n * (n + 1) := by
  induction n with
  | zero => simp
  | succ n ih =>
    rw [List.range_succ, List.map_append, List.sum_append, ih]
    simp only [List.map_cons, List.map_nil, List.sum_cons, List.sum_nil]
    push_cast
    ring

theorem map_backoff_eq (n : Nat) (hn : n ≤ maxBackoffRetry) :
    ((List.range n).map fun (j : Nat) => backoff ((j : Int) + 1)) =
      (List.range n).map fun (j : Nat) => 200 * ((j : Int) + 1) * Millisecond := by
  apply List.map_congr_left
  intro j hj
  have hj1 := List.mem_range.mp hj
  exact backoff_eq (by omega) (by exact_mod_cast (by omega : j + 1 ≤ maxBackoffRetry))

/-! ## Lemmas on one attempt -/

theorem doAttempt_sameConfig {env : Env} {tr : Transport} {i : Nat} {r : Request} {a : Attempt}
    (h : doAttempt env tr i r = some a) : SameConfig r a.req := by
  unfold doAttempt at h
  cases hN : env.NewRequestErr r.method r.url with
  | some err => rw [hN] at h; cases h; simp [SameConfig]
  | none =>
    rw [hN] at h
    cases hc : r.client with
    | none => rw [hc] at h; cases h
    | some c =>
      rw [hc] at h
      cases hd : tr i c (buildRequest env r) with
      | failed err n =>
        simp only [hd] at h; cases h; simp [SameConfig, hc]
      | response resp n =>
        simp only [hd] at h
        by_cases hs : resp.StatusCode ≠ StatusOK
        · rw [if_pos hs] at h; cases h; simp [SameConfig, hc]
        · rw [if_neg hs] at h
          cases hb : resp.Body with
          | failed err => simp only [hb] at h; cases h; simp [SameConfig, hc]
          | bytes b => simp only [hb] at h; cases h; simp [SameConfig, hc]

theorem SameConfig.refl (r : Request) : SameConfig r r := by simp [SameConfig]

theorem SameConfig.trans {r r1 r2 : Request} (h1 : SameConfig r r1) (h2 : SameConfig r1 r2) :
    SameConfig r r2 := by
  obtain ⟨a1, a2, a3, a4, a5, a6, a7⟩ := h1
  obtain ⟨b1, b2, b3, b4, b5, b6, b7⟩ := h2
  exact ⟨b1.trans a1, b2.trans a2, b3.trans a3, b4.trans a4, b5.trans a5, b6.trans a6,
    b7.trans a7⟩

theorem stateAfter_sameConfig (env : Env) (tr : Transport) (r : Request) (j : Nat) :
    SameConfig r (stateAfter env tr r j) := by
  induction j with
  | zero => exact SameConfig.refl r
  | succ j ih =>
    simp only [stateAfter]
    split
    · next a h => exact ih.trans (doAttempt_sameConfig h)
    · exact ih

/-! ## Lemmas on the retry loop -/

theorem retryLoop_unroll (env : Env) (tr : Transport) (r : Request) (l : Logger) (k : Nat)
    (hl : k = 0 ∨ r.logger = some l)
    (hfail : ∀ j < k, ∃ a, attemptAt env tr r j = some a ∧ a.err ≠ none)
    (hne : ∀ j < k, (j : Int) ≠ r.retry)
    (hk : (k : Int) < 2 ^ 63) (fuel : Nat) :
    retryLoop env tr (k + fuel) 0 0 r =
      (retryLoop env tr fuel k k (stateAfter env tr r k)).map
        fun e => { e with trace := retryPrefix env tr r l k ++ e.trace } := by
  induction k generalizing fuel with
  | zero =>
    simp only [Nat.zero_add, stateAfter, retryPrefix, List.nil_append, Nat.cast_zero]
    cases retryLoop env tr fuel 0 0 r <;> rfl
  | succ k ih =>
    have hlog1 : r.logger = some l := by
      rcases hl with h | h
      · omega
      · exact h
    have hk1 : (k : Int) < 2 ^ 63 := by push_cast at hk; omega
    have h1 := ih (Or.inr hlog1) (fun j hj => hfail j (by omega)) (fun j hj => hne j (by omega))
      hk1 (fuel + 1)
    rw [show k + 1 + fuel = k + (fuel + 1) by omega, h1]
    obtain ⟨a, ha, herr⟩ := hfail k (by omega)
    have hcfg := (stateAfter_sameConfig env tr r k).trans (doAttempt_sameConfig ha)
    obtain ⟨-, hurl, -, -, hretry, -, hlog⟩ := hcfg
    rw [hlog1] at hlog
    have hst : stateAfter env tr r (k + 1) = a.req := by
      simp only [stateAfter]
      unfold attemptAt at ha
      rw [ha]
    have hsent : sentAt env tr r k = a.sent := by
      simp [sentAt, ha]
    have hw : wrapInt64 ((k : Int) + 1) = (k : Int) + 1 :=
      wrapInt64_eq_self (by omega) (by push_cast at hk; omega)
    unfold attemptAt at ha
    rw [retryLoop, ha]
    simp only [herr, if_false, hretry, hne k (by omega), hw, hst, hurl, hlog, retryPrefix, hsent]
    push_cast
    cases retryLoop env tr fuel (k + 1) ((k : Int) + 1) a.req with
    | none => rfl
    | some e => simp

theorem DoHttpRequest_exhausted (env : Env) (tr : Transport) (r : Request) (l : Logger)
    (n : Nat) (hl : n = 0 ∨ r.logger = some l)
    (hfail : ∀ j < n, ∃ a, attemptAt env tr r j = some a ∧ a.err ≠ none)
    (a : Attempt) (ha : attemptAt env tr r n = some a) (herr : a.err ≠ none)
    (hretry : r.retry = n) (hn : (n : Int) < 2 ^ 63) (fuel : Nat) (hfuel : n + 1 ≤ fuel) :
    r.DoHttpRequest env tr fuel =
      some ⟨a.req, retryPrefix env tr r l n ++ [.attempt a.sent], .returned a.res a.err⟩ := by
  obtain ⟨f, rfl⟩ : ∃ f, fuel = n + (f + 1) := ⟨fuel - (n + 1), by omega⟩
  unfold Request.DoHttpRequest
  rw [retryLoop_unroll env tr r l n hl hfail
    (fun j hj => by rw [hretry]; exact_mod_cast hj.ne) hn]
  have hcfg := (stateAfter_sameConfig env tr r n).trans (doAttempt_sameConfig ha)
  unfold attemptAt at ha
  rw [retryLoop, ha]
  simp [herr, hcfg.2.2.2.2.1, hretry]

theorem DoHttpRequest_succeeds (env : Env) (tr : Transport) (r : Request) (l : Logger)
    (k : Nat) (hl : k = 0 ∨ r.logger = some l)
    (hfail : ∀ j < k, ∃ a, attemptAt env tr r j = some a ∧ a.err ≠ none)
    (a : Attempt) (ha : attemptAt env tr r k = some a) (herr : a.err = none)
    (hne : ∀ j < k, (j : Int) ≠ r.retry) (hk : (k : Int) < 2 ^ 63)
    (fuel : Nat) (hfuel : k + 1 ≤ fuel) :
    r.DoHttpRequest env tr fuel =
      some ⟨a.req, retryPrefix env tr r l k ++ [.attempt a.sent], .returned a.res none⟩ := by
  obtain ⟨f, rfl⟩ : ∃ f, fuel = k + (f + 1) := ⟨fuel - (k + 1), by omega⟩
  unfold Request.DoHttpRequest
  rw [retryLoop_unroll env tr r l k hl hfail hne hk]
  unfold attemptAt at ha
  rw [retryLoop, ha]
  simp [herr]

theorem DoHttpRequest_nil_logger (env : Env) (tr : Transport) (r : Request)
    (a : Attempt) (ha : attemptAt env tr r 0 = some a) (herr : a.err ≠ none)
    (hretry : r.retry ≠ 0) (hl : r.logger = none) (fuel : Nat) (hfuel : 1 ≤ fuel) :
    r.DoHttpRequest env tr fuel = some ⟨a.req, [.attempt a.sent], .panicked⟩ := by
  obtain ⟨f, rfl⟩ : ∃ f, fuel = f + 1 := ⟨fuel - 1, by omega⟩
  have hcfg := doAttempt_sameConfig ha
  unfold attemptAt at ha
  simp only [stateAfter] at ha
  unfold Request.DoHttpRequest
  rw [retryLoop, ha]
  have hr : ¬ ((0 : Int) = a.req.retry) := by
    rw [hcfg.2.2.2.2.1]; exact fun h => hretry h.symm
  have hlog : a.req.logger = none := hcfg.2.2.2.2.2.2.trans hl
  simp only [herr, if_false, hr, hlog]

/-! ## Lemmas on traces -/

theorem attempts_append (s t : List Event) : attempts (s ++ t) = attempts s + attempts t := by
  simp [attempts, List.countP_append]

theorem logs_append (s t : List Event) : logs (s ++ t) = logs s ++ logs t := by
  simp [logs, List.filterMap_append]

theorem sleeps_append (s t : List Event) : sleeps (s ++ t) = sleeps s ++ sleeps t := by
  simp [sleeps, List.filterMap_append]

theorem sent_append (s t : List Event) : sent (s ++ t) = sent s ++ sent t := by
  simp [sent, List.filterMap_append]

theorem attempts_retryPrefix (env : Env) (tr : Transport) (r : Request) (l : Logger)
    (k : Nat) :
    attempts (retryPrefix env tr r l k) = k := by
  induction k with
  | zero => rfl
  | succ k ih => rw [retryPrefix, attempts_append, ih]; rfl

theorem logs_retryPrefix (env : Env) (tr : Transport) (r : Request) (l : Logger) (k : Nat) :
    logs (retryPrefix env tr r l k) =
      (List.range k).map fun (j : Nat) => (l, retryMessage r.url ((j : Int) + 1)) := by
  induction k with
  | zero => rfl
  | succ k ih => rw [retryPrefix, logs_append, ih, List.range_succ, List.map_append]; rfl

theorem sleeps_retryPrefix (env : Env) (tr : Transport) (r : Request) (l : Logger)
    (k : Nat) :
    sleeps (retryPrefix env tr r l k) =
      (List.range k).map fun (j : Nat) => backoff ((j : Int) + 1) := by
  induction k with
  | zero => rfl
  | succ k ih => rw [retryPrefix, sleeps_append, ih, List.range_succ, List.map_append]; rfl

/-! ## Attempts that fail -/

theorem doAttempt_of_construction_error {env : Env} {tr : Transport} {i : Nat} {r : Request}
    {err : Error} (hN : env.NewRequestErr r.method r.url = some err) :
    doAttempt env tr i r = some ⟨none, some err, r, none⟩ := by
  unfold doAttempt
  rw [hN]

theorem doAttempt_res_none {env : Env} {tr : Transport} {i : Nat} {r : Request} {a : Attempt}
    (h : doAttempt env tr i r = some a) (herr : a.err ≠ none) : a.res = none := by
  unfold doAttempt at h
  cases hN : env.NewRequestErr r.method r.url with
  | some err => rw [hN] at h; cases h; rfl
  | none =>
    rw [hN] at h
    cases hc : r.client with
    | none => rw [hc] at h; cases h
    | some c =>
      rw [hc] at h
      cases hd : tr i c (buildRequest env r) with
      | failed err n => simp only [hd] at h; cases h; rfl
      | response resp n =>
        simp only [hd] at h
        by_cases hs : resp.StatusCode ≠ StatusOK
        · rw [if_pos hs] at h; cases h; rfl
        · rw [if_neg hs] at h
          cases hb : resp.Body with
          | failed err => simp only [hb] at h; cases h; rfl
          | bytes b => simp only [hb] at h; cases h; exact absurd rfl herr

theorem doAttempt_of_transport_fails {env : Env} {tr : Transport} {i : Nat} {r : Request}
    {c : Client} (hc : r.client = some c) (hf : ∀ w, (tr i c w).Fails) :
    ∃ a, doAttempt env tr i r = some a ∧ a.err ≠ none := by
  unfold doAttempt
  cases hN : env.NewRequestErr r.method r.url with
  | some err => exact ⟨_, rfl, by simp⟩
  | none =>
    simp only [hc]
    have hw := hf (buildRequest env r)
    cases hd : tr i c (buildRequest env r) with
    | failed err n => exact ⟨_, rfl, by simp⟩
    | response resp n =>
      rw [hd] at hw
      simp only
      by_cases hs : resp.StatusCode ≠ StatusOK
      · rw [if_pos hs]; exact ⟨_, rfl, by simp⟩
      · rw [if_neg hs]
        rcases hw with hw | ⟨e, he⟩
        · exact absurd hw hs
        · simp only [he]; exact ⟨_, rfl, by simp⟩

theorem attemptAt_of_transport_fails {env : Env} {tr : Transport} {r : Request} {c : Client}
    (hc : r.client = some c) (hf : ∀ i w, (tr i c w).Fails) (j : Nat) :
    ∃ a, attemptAt env tr r j = some a ∧ a.err ≠ none :=
  doAttempt_of_transport_fails
    (((stateAfter_sameConfig env tr r j).2.2.2.2.2.1).trans hc) (hf j)

theorem sum_max_linear (n : Nat) :
    (((List.range n).map fun (j : Nat) => 200 * ((j : Int) + 1) * Millisecond).map
      fun d => max d 0).sum = 100 * Millisecond * n * (n + 1) := by
  rw [List.map_map, ← sum_linear_backoff]
  refine congrArg List.sum (List.map_congr_left ?_)
  intro j _
  simp only [Function.comp, Millisecond]
  exact max_eq_left (by positivity)

theorem totalDelay_linear (t : List Event) (n : Nat)
    (h : sleeps t = (List.range n).map fun (j : Nat) => 200 * ((j : Int) + 1) * Millisecond) :
    totalDelay t = 100 * Millisecond * n * (n + 1) := by
  unfold totalDelay
  rw [h, sum_max_linear]

theorem sleeps_exhausted (env : Env) (tr : Transport) (r : Request) (l : Logger) (n : Nat)
    (s : Option WireRequest) :
    sleeps (retryPrefix env tr r l n ++ [Event.attempt s]) =
      (List.range n).map fun (j : Nat) => backoff ((j : Int) + 1) := by
  rw [sleeps_append, sleeps_retryPrefix]; simp [sleeps]

theorem backoff_range_overflow :
    ((List.range (maxBackoffRetry + 1)).map fun (j : Nat) => backoff ((j : Int) + 1)) =
      ((List.range maxBackoffRetry).map fun (j : Nat) => 200 * ((j : Int) + 1) * Millisecond) ++
        [-9223372036709551616] := by
  rw [List.range_succ, List.map_append, map_backoff_eq _ le_rfl]
  simp only [List.map_cons, List.map_nil]
  rw [backoff_overflow]

theorem exhausted_of_transport_fails (env : Env) (tr : Transport) (r : Request) (c : Client)
    (l : Logger) (n : Nat) (hc : r.client = some c) (hl : n = 0 ∨ r.logger = some l)
    (hretry : r.retry = n) (hn : (n : Int) < 2 ^ 63)
    (hfail : ∀ i w, (tr i c w).Fails) (fuel : Nat) (hfuel : n + 1 ≤ fuel) :
    ∃ a err, attemptAt env tr r n = some a ∧ a.err = some err ∧
      r.DoHttpRequest env tr fuel =
        some ⟨a.req, retryPrefix env tr r l n ++ [.attempt a.sent],
          .returned none (some err)⟩ := by
  obtain ⟨a, ha, herr⟩ := @attemptAt_of_transport_fails env tr r c hc hfail n
  obtain ⟨err, he⟩ := Option.ne_none_iff_exists'.mp herr
  have hres : a.res = none := doAttempt_res_none ha herr
  refine ⟨a, err, ha, he, ?_⟩
  rw [DoHttpRequest_exhausted env tr r l n hl
    (fun j _ => attemptAt_of_transport_fails hc hfail j) a ha herr hretry hn fuel hfuel, hres, he]

theorem nil_logger_panics_of_transport_fails (env : Env) (tr : Transport) (r : Request)
    (c : Client) (hc : r.client = some c) (hl : r.logger = none) (hretry : r.retry ≠ 0)
    (hfail : ∀ i w, (tr i c w).Fails) (fuel : Nat) (hfuel : 1 ≤ fuel) :
    ∃ a, attemptAt env tr r 0 = some a ∧
      r.DoHttpRequest env tr fuel = some ⟨a.req, [.attempt a.sent], .panicked⟩ := by
  obtain ⟨a, ha, herr⟩ := @attemptAt_of_transport_fails env tr r c hc hfail 0
  exact ⟨a, ha, DoHttpRequest_nil_logger env tr r a ha herr hretry hl fuel hfuel⟩

/-! ## Executions against a transport that always fails -/

/-- C1 (amended): for every retry count `n ≥ 0` of a Go `int` and every request
whose transport always fails and whose logger is not nil (or with `n = 0`),
`DoHttpRequest` returns after exactly `n + 1` attempts with a nil result and an
error; when `n ≤ 46116860184` its sleeps are `200ms × 1, ..., 200ms × n`, so the
total delay is `100ms × n × (n + 1)`; with `n = 0` there is one attempt and no
sleep. -/
theorem always_failing_attempts_and_delay (env : Env) (tr : Transport) (r : Request)
    (c : Client) (l : Logger) (n : Nat) (hc : r.client = some c)
    (hl : n = 0 ∨ r.logger = some l) (hretry : r.retry = n)
    (hn : (n : Int) < 2 ^ 63) (hfail : ∀ i w, (tr i c w).Fails)
    (fuel : Nat) (hfuel : n + 1 ≤ fuel) :
    ∃ e err, r.DoHttpRequest env tr fuel = some e ∧ e.out = .returned none (some err) ∧
      attempts e.trace = n + 1 ∧
      (n ≤ maxBackoffRetry →
        sleeps e.trace =
            (List.range n).map (fun (j : Nat) => 200 * ((j : Int) + 1) * Millisecond) ∧
          totalDelay e.trace = 100 * Millisecond * n * (n + 1)) ∧
      (n = 0 → attempts e.trace = 1 ∧ sleeps e.trace = []) := by
  obtain ⟨a, err, -, -, hrun⟩ :=
    exhausted_of_transport_fails env tr r c l n hc hl hretry hn hfail fuel hfuel
  have hs := sleeps_exhausted env tr r l n a.sent
  have hatt : attempts (retryPrefix env tr r l n ++ [Event.attempt a.sent]) = n + 1 := by
    rw [attempts_append, attempts_retryPrefix]; rfl
  refine ⟨_, err, hrun, rfl, hatt, ?_, ?_⟩
  · intro hb
    have hs2 := hs.trans (map_backoff_eq n hb)
    exact ⟨hs2, totalDelay_linear _ n hs2⟩
  · intro h0
    subst h0
    exact ⟨hatt, by rw [hs]; rfl⟩

/-- Witness of C1: retry counts 2 and 0 against a transport that always fails,
the second with a nil logger. -/
theorem always_failing_attempts_and_delay_witness :
    (∃ e err, (sampleRequest "http://x/y" 2).DoHttpRequest sampleEnv alwaysFail 3 = some e ∧
      e.out = .returned none (some err) ∧ attempts e.trace = 3 ∧
      sleeps e.trace = [200 * Millisecond, 400 * Millisecond] ∧
      totalDelay e.trace = 100 * Millisecond * 2 * 3) ∧
    (∃ e err, (nilLoggerRequest "http://x/y" 0).DoHttpRequest sampleEnv alwaysFail 1 =
        some e ∧
      e.out = .returned none (some err) ∧ attempts e.trace = 1 ∧ sleeps e.trace = []) := by
  constructor
  · obtain ⟨e, err, he, hout, hatt, hs, -⟩ :=
      always_failing_attempts_and_delay sampleEnv alwaysFail (sampleRequest "http://x/y" 2)
        ⟨0⟩ DefaultLog 2 rfl (Or.inr rfl) rfl (by norm_num) (fun _ _ => trivial) 3
        (by norm_num)
    obtain ⟨hs1, hs2⟩ := hs (by decide)
    exact ⟨e, err, he, hout, hatt, by rw [hs1]; decide, by rw [hs2]; decide⟩
  · obtain ⟨e, err, he, hout, -, -, h0⟩ :=
      always_failing_attempts_and_delay sampleEnv alwaysFail
        (nilLoggerRequest "http://x/y" 0) ⟨0⟩ DefaultLog 0 rfl (Or.inl rfl) rfl (by norm_num)
        (fun _ _ => trivial) 1 (by norm_num)
    exact ⟨e, err, he, hout, (h0 rfl).1, (h0 rfl).2⟩

/-- Counterexample to C1 as stated, on two inputs. With retry count 46116860185
the argument of the last sleep overflows `time.Duration` and is negative, so
the total delay differs from `100ms × n × (n + 1)`. With the nil logger that
`WithLog(nil)` stores and retry count 1, the call `r.logger.Error` of the first
retry panics: there is one attempt, not two, and no error is returned. -/
theorem always_failing_delay_overflow :
    (∃ e, (sampleRequest "http://x/y" 46116860185).DoHttpRequest sampleEnv alwaysFail
        46116860186 = some e ∧
      attempts e.trace = 46116860185 + 1 ∧
      (sleeps e.trace).getLast? = some (-9223372036709551616) ∧
      totalDelay e.trace ≠ 100 * Millisecond * 46116860185 * (46116860185 + 1)) ∧
    (∃ r e, NewHttpRequest "POST" "http://x/y" [WithLog none, WithRetry 1] = some r ∧
      r.DoHttpRequest sampleEnv alwaysFail 2 = some e ∧
      e.out = .panicked ∧ attempts e.trace = 1) := by
  constructor
  · obtain ⟨a, err, -, -, hrun⟩ :=
      exhausted_of_transport_fails sampleEnv alwaysFail
        (sampleRequest "http://x/y" 46116860185) ⟨0⟩ DefaultLog 46116860185 rfl (Or.inr rfl)
        rfl (by norm_num) (fun _ _ => trivial) 46116860186 (by norm_num)
    refine ⟨_, hrun, ?_, ?_, ?_⟩
    · rw [attempts_append, attempts_retryPrefix]; rfl
    · rw [sleeps_exhausted, show (46116860185 : Nat) = maxBackoffRetry + 1 from rfl,
        backoff_range_overflow]
      simp
    · unfold totalDelay
      rw [sleeps_exhausted, show (46116860185 : Nat) = maxBackoffRetry + 1 from rfl,
        backoff_range_overflow, List.map_append, List.sum_append, sum_max_linear]
      simp only [maxBackoffRetry, Millisecond]
      norm_num
  · exact ⟨_, _, rfl, rfl, by decide, by decide⟩

/-! ## Executions that succeed -/

theorem doAttempt_of_ok {env : Env} {tr : Transport} {i : Nat} {r : Request} {c : Client}
    {b : String} {m : Nat} (hN : env.NewRequestErr r.method r.url = none)
    (hc : r.client = some c)
    (hd : tr i c (buildRequest env r) = .response ⟨StatusOK, .bytes b⟩ m) :
    doAttempt env tr i r =
      some ⟨some b, none,
        { r with body := r.body.map (Reader.advance · m),
                 response := some ⟨StatusOK, .bytes b⟩ },
        some (buildRequest env r)⟩ := by
  unfold doAttempt
  rw [hN]
  simp only [hc, hd]
  simp

theorem length_logs_retryPrefix (env : Env) (tr : Transport) (r : Request) (l : Logger)
    (k : Nat) : (logs (retryPrefix env tr r l k)).length = k := by
  rw [logs_retryPrefix]; simp

theorem length_sleeps_retryPrefix (env : Env) (tr : Transport) (r : Request) (l : Logger)
    (k : Nat) : (sleeps (retryPrefix env tr r l k)).length = k := by
  rw [sleeps_retryPrefix]; simp

/-- C2: for every retry count `n ≥ 0` and every `k` with `1 ≤ k ≤ n + 1`, against
a transport that fails the attempts `1..k-1` and answers attempt `k` with status
200 and the body `b`: `DoHttpRequest` ends, and when attempt `k` takes place
(the execution makes `k` attempts) it returns `(b, nil)` after exactly `k`
attempts; its trace is `k - 1` rounds of attempt, log message and sleep
followed by attempt `k`, so all `k - 1` log messages and `k - 1` sleeps come
before attempt `k` and nothing follows it. Attempt `k` takes place when `k = 1`
or the logger is not nil; with a nil logger and `k ≥ 2` the log call of the
first retry panics after one attempt and there is no attempt `k`. -/
theorem success_on_attempt_k (env : Env) (tr : Transport) (r : Request) (c : Client)
    (n k : Nat) (b : String) (hN : env.NewRequestErr r.method r.url = none)
    (hc : r.client = some c) (hretry : r.retry = n) (hn : (n : Int) < 2 ^ 63)
    (hk1 : 1 ≤ k) (hk : k ≤ n + 1)
    (hfail : ∀ j w, j + 1 < k → (tr j c w).Fails)
    (hok : ∀ w, ∃ m, tr (k - 1) c w = .response ⟨StatusOK, .bytes b⟩ m)
    (fuel : Nat) (hfuel : k ≤ fuel) :
    ∃ e, r.DoHttpRequest env tr fuel = some e ∧
      (attempts e.trace = k →
        e.out = .returned (some b) none ∧
        (logs e.trace).length = k - 1 ∧ (sleeps e.trace).length = k - 1 ∧
        ∃ pre w, e.trace = pre ++ [.attempt (some w)] ∧ attempts pre = k - 1 ∧
          (logs pre).length = k - 1 ∧ (sleeps pre).length = k - 1) ∧
      (k = 1 ∨ r.logger ≠ none → attempts e.trace = k) ∧
      (2 ≤ k → r.logger = none →
        e.out = .panicked ∧ attempts e.trace = 1 ∧ logs e.trace = [] ∧
          sleeps e.trace = []) := by
  obtain ⟨k, rfl⟩ : ∃ k0, k = k0 + 1 := ⟨k - 1, by omega⟩
  simp only [Nat.add_sub_cancel] at hok ⊢
  have hfails : ∀ j < k, ∃ a, attemptAt env tr r j = some a ∧ a.err ≠ none := by
    intro j hj
    exact doAttempt_of_transport_fails
      (((stateAfter_sameConfig env tr r j).2.2.2.2.2.1).trans hc)
      (fun w => hfail j w (by omega))
  have hreturns : ∀ l : Logger, k = 0 ∨ r.logger = some l →
      ∃ e, r.DoHttpRequest env tr fuel = some e ∧ attempts e.trace = k + 1 ∧
        e.out = .returned (some b) none ∧
        (logs e.trace).length = k ∧ (sleeps e.trace).length = k ∧
        ∃ pre w, e.trace = pre ++ [.attempt (some w)] ∧ attempts pre = k ∧
          (logs pre).length = k ∧ (sleeps pre).length = k := by
    intro l hl0
    have hcfg := stateAfter_sameConfig env tr r k
    have hN1 : env.NewRequestErr (stateAfter env tr r k).method (stateAfter env tr r k).url =
        none := by rw [hcfg.1, hcfg.2.1]; exact hN
    have hc1 : (stateAfter env tr r k).client = some c := hcfg.2.2.2.2.2.1.trans hc
    obtain ⟨m, hm⟩ := hok (buildRequest env (stateAfter env tr r k))
    have ha := doAttempt_of_ok hN1 hc1 hm
    have hrun := DoHttpRequest_succeeds env tr r l k hl0 hfails _ ha rfl
      (fun j hj => by rw [hretry]; exact_mod_cast (by omega : j ≠ n))
      (by have : (k : Int) ≤ n := by exact_mod_cast (by omega : k ≤ n)
          omega) fuel hfuel
    refine ⟨_, hrun, ?_, rfl, ?_, ?_, retryPrefix env tr r l k,
      buildRequest env (stateAfter env tr r k), rfl, attempts_retryPrefix env tr r l k,
      length_logs_retryPrefix env tr r l k, length_sleeps_retryPrefix env tr r l k⟩
    · simp only [attempts_append, attempts_retryPrefix]; rfl
    · simp only [logs_append, List.length_append, length_logs_retryPrefix]; rfl
    · simp only [sleeps_append, List.length_append, length_sleeps_retryPrefix]; rfl
  have hdone : ∀ l : Logger, k = 0 ∨ r.logger = some l →
      ∃ e, r.DoHttpRequest env tr fuel = some e ∧
        (attempts e.trace = k + 1 →
          e.out = .returned (some b) none ∧
          (logs e.trace).length = k ∧ (sleeps e.trace).length = k ∧
          ∃ pre w, e.trace = pre ++ [.attempt (some w)] ∧ attempts pre = k ∧
            (logs pre).length = k ∧ (sleeps pre).length = k) ∧
        (k + 1 = 1 ∨ r.logger ≠ none → attempts e.trace = k + 1) ∧
        (2 ≤ k + 1 → r.logger = none →
          e.out = .panicked ∧ attempts e.trace = 1 ∧ logs e.trace = [] ∧
            sleeps e.trace = []) := by
    intro l hl0
    obtain ⟨e, he, hatt, hrest⟩ := hreturns l hl0
    refine ⟨e, he, fun _ => hrest, fun _ => hatt, ?_⟩
    intro h2 hnil
    rcases hl0 with h | h
    · omega
    · rw [hnil] at h
      exact Option.noConfusion h
  cases hlog : r.logger with
  | some l => simpa [hlog] using hdone l (Or.inr hlog)
  | none =>
    by_cases h0 : k = 0
    · simpa [hlog] using hdone DefaultLog (Or.inl h0)
    · obtain ⟨a, ha, herr⟩ := hfails 0 (by omega)
      have hr0 : r.retry ≠ 0 := by
        rw [hretry]
        exact_mod_cast (by omega : n ≠ 0)
      refine ⟨_, DoHttpRequest_nil_logger env tr r a ha herr hr0 hlog fuel (by omega), ?_, ?_,
        fun _ _ => ⟨rfl, rfl, rfl, rfl⟩⟩
      · intro h
        have h1 : attempts [Event.attempt a.sent] = 1 := rfl
        simp only at h
        omega
      · rintro (h | h)
        · omega
        · exact absurd rfl h

/-- Witness of C2: retry count 3, the third attempt succeeds; and the same
transport with a nil logger. -/
theorem success_on_attempt_k_witness :
    (∃ e pre w, (sampleRequest "http://x/y" 3).DoHttpRequest sampleEnv (succeedAt 2 "ok") 3 =
        some e ∧ e.out = .returned (some "ok") none ∧
      attempts e.trace = 3 ∧ (logs e.trace).length = 3 - 1 ∧
      (sleeps e.trace).length = 3 - 1 ∧
      e.trace = pre ++ [.attempt (some w)] ∧ attempts pre = 3 - 1 ∧
      (logs pre).length = 3 - 1 ∧ (sleeps pre).length = 3 - 1) ∧
    (∃ e, (nilLoggerRequest "http://x/y" 3).DoHttpRequest sampleEnv (succeedAt 2 "ok") 3 =
        some e ∧ e.out = .panicked ∧ attempts e.trace = 1) := by
  constructor
  · obtain ⟨e, he, hclaim, hatt, -⟩ :=
      success_on_attempt_k sampleEnv (succeedAt 2 "ok") (sampleRequest "http://x/y" 3) ⟨0⟩
        3 3 "ok" (by decide) rfl rfl (by norm_num) (by norm_num) (by norm_num)
        (fun j w hj => by
          have h2 : j < 2 := by omega
          simp [succeedAt, h2, DoResult.Fails])
        (fun w => ⟨(w.Body.getD "").length, by simp [succeedAt, StatusOK]⟩) 3
        (by norm_num)
    have hk := hatt (Or.inr (by decide))
    obtain ⟨hout, hl, hs, pre, w, htr, h1, h2, h3⟩ := hclaim hk
    exact ⟨e, pre, w, he, hout, hk, hl, hs, htr, h1, h2, h3⟩
  · obtain ⟨e, he, -, -, hpan⟩ :=
      success_on_attempt_k sampleEnv (succeedAt 2 "ok") (nilLoggerRequest "http://x/y" 3) ⟨0⟩
        3 3 "ok" (by decide) rfl rfl (by norm_num) (by norm_num) (by norm_num)
        (fun j w hj => by
          have h2 : j < 2 := by omega
          simp [succeedAt, h2, DoResult.Fails])
        (fun w => ⟨(w.Body.getD "").length, by simp [succeedAt, StatusOK]⟩) 3
        (by norm_num)
    obtain ⟨hp, ha, -, -⟩ := hpan (by norm_num) rfl
    exact ⟨e, he, hp, ha⟩

/-! ## Request-construction errors -/

theorem stateAfter_of_construction_error {env : Env} {tr : Transport} {r : Request} {err : Error}
    (hN : env.NewRequestErr r.method r.url = some err) (j : Nat) :
    stateAfter env tr r j = r := by
  induction j with
  | zero => rfl
  | succ j ih => simp only [stateAfter, ih, doAttempt_of_construction_error hN]

theorem attemptAt_of_construction_error {env : Env} {tr : Transport} {r : Request} {err : Error}
    (hN : env.NewRequestErr r.method r.url = some err) (j : Nat) :
    attemptAt env tr r j = some ⟨none, some err, r, none⟩ := by
  unfold attemptAt
  rw [stateAfter_of_construction_error hN, doAttempt_of_construction_error hN]

theorem sent_retryPrefix_of_construction_error {env : Env} {tr : Transport} {r : Request}
    {err : Error} (hN : env.NewRequestErr r.method r.url = some err) (l : Logger) (k : Nat) :
    sent (retryPrefix env tr r l k) = [] := by
  induction k with
  | zero => rfl
  | succ k ih =>
    rw [retryPrefix, sent_append, ih]
    simp [sent, sentAt, attemptAt_of_construction_error hN]

/-- C3 (amended): on a request whose logger is not nil, a request-construction
error is retried like every other failure. For retry count `n`,
`DoHttpRequest` makes `n + 1` attempts, none of which reaches the transport,
logs `n` retries, sleeps `n` times and returns the construction error; the
request is left as it was. Only with retry count 0 does it fail on the first
attempt without a log message or a sleep. -/
theorem construction_error_retried (env : Env) (tr : Transport) (r : Request) (err : Error)
    (l : Logger) (n : Nat) (hN : env.NewRequestErr r.method r.url = some err)
    (hl : n = 0 ∨ r.logger = some l) (hretry : r.retry = n)
    (hn : (n : Int) < 2 ^ 63) (fuel : Nat) (hfuel : n + 1 ≤ fuel) :
    ∃ e, r.DoHttpRequest env tr fuel = some e ∧ e.out = .returned none (some err) ∧
      e.req = r ∧ attempts e.trace = n + 1 ∧ sent e.trace = [] ∧
      logs e.trace =
        (List.range n).map (fun (j : Nat) => (l, retryMessage r.url ((j : Int) + 1))) ∧
      sleeps e.trace = (List.range n).map (fun (j : Nat) => backoff ((j : Int) + 1)) ∧
      (n = 0 → e.trace = [.attempt none]) := by
  have hrun := DoHttpRequest_exhausted env tr r l n hl
    (fun j _ => ⟨_, attemptAt_of_construction_error hN j, by simp⟩) _
    (attemptAt_of_construction_error hN n) (by simp) hretry hn fuel hfuel
  refine ⟨_, hrun, rfl, rfl, ?_, ?_, ?_, sleeps_exhausted env tr r l n none, ?_⟩
  · simp only [attempts_append, attempts_retryPrefix]; rfl
  · simp only [sent_append, sent_retryPrefix_of_construction_error hN]; rfl
  · simp only [logs_append, logs_retryPrefix]; simp [logs]
  · intro h0; subst h0; rfl

/-- Witness of C3 (amended): the URL `":"` does not parse; retry counts 2 and 0. -/
theorem construction_error_retried_witness :
    (∃ e, (sampleRequest ":" 2).DoHttpRequest sampleEnv alwaysFail 3 = some e ∧
      e.out = .returned none (some (.ext "parse \":\": missing protocol scheme")) ∧
      e.req = sampleRequest ":" 2 ∧ attempts e.trace = 3 ∧ sent e.trace = [] ∧
      (logs e.trace).length = 2 ∧ (sleeps e.trace).length = 2) ∧
    (∃ e, (sampleRequest ":" 0).DoHttpRequest sampleEnv alwaysFail 1 = some e ∧
      e.out = .returned none (some (.ext "parse \":\": missing protocol scheme")) ∧
      e.trace = [.attempt none]) := by
  constructor
  · obtain ⟨e, he, hout, hreq, hatt, hsent, hlogs, hsl, -⟩ :=
      construction_error_retried sampleEnv alwaysFail (sampleRequest ":" 2)
        (.ext "parse \":\": missing protocol scheme") DefaultLog 2 (by decide) (Or.inr rfl)
        rfl (by norm_num) 3 (by norm_num)
    exact ⟨e, he, hout, hreq, hatt, hsent, by rw [hlogs]; simp, by rw [hsl]; simp⟩
  · obtain ⟨e, he, hout, -, -, -, -, -, h0⟩ :=
      construction_error_retried sampleEnv alwaysFail (sampleRequest ":" 0)
        (.ext "parse \":\": missing protocol scheme") DefaultLog 0 (by decide) (Or.inl rfl)
        rfl (by norm_num) 1 (by norm_num)
    exact ⟨e, he, hout, h0 rfl⟩

/-- Counterexample to C3 as stated: with retry count 2 a request whose URL does
not parse makes three attempts, logs two retries and sleeps twice. -/
theorem construction_error_not_immediate :
    ∃ e, (sampleRequest ":" 2).DoHttpRequest sampleEnv alwaysFail 3 = some e ∧
      sampleEnv.NewRequestErr (sampleRequest ":" 2).method (sampleRequest ":" 2).url ≠ none ∧
      attempts e.trace = 3 ∧ (logs e.trace).length = 2 ∧
      sleeps e.trace = [200000000, 400000000] :=
  ⟨_, rfl, by decide, by decide, by decide, by decide⟩

/-! ## Status codes other than 200 -/

theorem doAttempt_of_non200 {env : Env} {tr : Transport} {i : Nat} {r : Request} {c : Client}
    {resp : Response} {m : Nat} (hN : env.NewRequestErr r.method r.url = none)
    (hc : r.client = some c) (hd : tr i c (buildRequest env r) = .response resp m)
    (hs : resp.StatusCode ≠ StatusOK) :
    doAttempt env tr i r =
      some ⟨none, some Error.Not200,
        { r with body := r.body.map (Reader.advance · m), response := some resp },
        some (buildRequest env r)⟩ := by
  unfold doAttempt
  rw [hN]
  simp only [hc, hd]
  rw [if_pos hs]

theorem logs_exhausted (env : Env) (tr : Transport) (r : Request) (l : Logger) (n : Nat)
    (s : Option WireRequest) :
    logs (retryPrefix env tr r l n ++ [Event.attempt s]) =
      (List.range n).map fun (j : Nat) => (l, retryMessage r.url ((j : Int) + 1)) := by
  rw [logs_append, logs_retryPrefix]; simp [logs]

theorem attempts_exhausted (env : Env) (tr : Transport) (r : Request) (l : Logger) (n : Nat)
    (s : Option WireRequest) :
    attempts (retryPrefix env tr r l n ++ [Event.attempt s]) = n + 1 := by
  rw [attempts_append, attempts_retryPrefix]; rfl

theorem exhausted_of_status (env : Env) (tr : Transport) (r : Request) (c : Client)
    (l : Logger) (n : Nat) (code : Int) (hN : env.NewRequestErr r.method r.url = none)
    (hc : r.client = some c) (hl : n = 0 ∨ r.logger = some l) (hretry : r.retry = n)
    (hn : (n : Int) < 2 ^ 63) (hcode : code ≠ StatusOK)
    (hst : ∀ i w, ∃ body m, tr i c w = .response ⟨code, body⟩ m)
    (fuel : Nat) (hfuel : n + 1 ≤ fuel) :
    ∃ e, r.DoHttpRequest env tr fuel = some e ∧
      e.out = .returned none (some Error.Not200) ∧ attempts e.trace = n + 1 ∧
      logs e.trace =
        (List.range n).map (fun (j : Nat) => (l, retryMessage r.url ((j : Int) + 1))) ∧
      sleeps e.trace = (List.range n).map (fun (j : Nat) => backoff ((j : Int) + 1)) := by
  have hatt : ∀ j, ∃ a, attemptAt env tr r j = some a ∧ a.err = some Error.Not200 ∧
      a.res = none := by
    intro j
    have hcfg := stateAfter_sameConfig env tr r j
    obtain ⟨body, m, hm⟩ := hst j (buildRequest env (stateAfter env tr r j))
    exact ⟨_, doAttempt_of_non200 (by rw [hcfg.1, hcfg.2.1]; exact hN)
      (hcfg.2.2.2.2.2.1.trans hc) hm hcode, rfl, rfl⟩
  obtain ⟨a, ha, herr, hres⟩ := hatt n
  have hrun := DoHttpRequest_exhausted env tr r l n hl
    (fun j _ => by obtain ⟨a1, h1, h2, -⟩ := hatt j; exact ⟨a1, h1, by simp [h2]⟩)
    a ha (by simp [herr]) hretry hn fuel hfuel
  rw [herr, hres] at hrun
  exact ⟨_, hrun, rfl, attempts_exhausted env tr r l n a.sent,
    logs_exhausted env tr r l n a.sent, sleeps_exhausted env tr r l n a.sent⟩

theorem fails_of_status {tr : Transport} {c : Client} {code : Int} (hcode : code ≠ StatusOK)
    (hst : ∀ i w, ∃ body m, tr i c w = .response ⟨code, body⟩ m) :
    ∀ i w, (tr i c w).Fails := by
  intro i w
  obtain ⟨body, m, h⟩ := hst i w
  rw [h]
  exact Or.inl hcode

/-- C4: an attempt that receives a status `s ≠ 200` fails with the sentinel
`Not200` whatever the response body is (the body is not read); an attempt that
receives status 200 and reads the body succeeds with it; and for the same
request and retry count an always-404 transport, an always-500 transport and a
transport that always fails produce the same number of attempts, the same log
messages and the same sleeps, and the two status transports end the same way:
with `Not200` after `n + 1` attempts when the logger is not nil or `n = 0`, and
all three with the panic of the first retry, after one attempt, when the
logger is nil and `n ≥ 1`. -/
theorem non200_is_one_failure_class (env : Env) :
    (∀ (tr : Transport) (i : Nat) (r : Request) (c : Client) (resp : Response) (m : Nat),
      env.NewRequestErr r.method r.url = none → r.client = some c →
      tr i c (buildRequest env r) = .response resp m → resp.StatusCode ≠ StatusOK →
      ∃ a, doAttempt env tr i r = some a ∧ a.res = none ∧ a.err = some Error.Not200 ∧
        a.req.response = some resp) ∧
    (∀ (tr : Transport) (i : Nat) (r : Request) (c : Client) (b : String) (m : Nat),
      env.NewRequestErr r.method r.url = none → r.client = some c →
      tr i c (buildRequest env r) = .response ⟨StatusOK, .bytes b⟩ m →
      ∃ a, doAttempt env tr i r = some a ∧ a.res = some b ∧ a.err = none) ∧
    (∀ (tr404 tr500 trErr : Transport) (r : Request) (c : Client) (n fuel : Nat),
      env.NewRequestErr r.method r.url = none → r.client = some c → r.retry = n →
      (n : Int) < 2 ^ 63 → n + 1 ≤ fuel →
      (∀ i w, ∃ body m, tr404 i c w = .response ⟨404, body⟩ m) →
      (∀ i w, ∃ body m, tr500 i c w = .response ⟨500, body⟩ m) →
      (∀ i w, ∃ err m, trErr i c w = .failed err m) →
      ∃ e1 e2 e3, r.DoHttpRequest env tr404 fuel = some e1 ∧
        r.DoHttpRequest env tr500 fuel = some e2 ∧ r.DoHttpRequest env trErr fuel = some e3 ∧
        e1.out = e2.out ∧
        attempts e1.trace = attempts e2.trace ∧ attempts e2.trace = attempts e3.trace ∧
        logs e1.trace = logs e2.trace ∧ logs e2.trace = logs e3.trace ∧
        sleeps e1.trace = sleeps e2.trace ∧ sleeps e2.trace = sleeps e3.trace ∧
        (n = 0 ∨ r.logger ≠ none →
          e1.out = .returned none (some Error.Not200) ∧ attempts e1.trace = n + 1) ∧
        (1 ≤ n → r.logger = none →
          e1.out = .panicked ∧ e3.out = .panicked ∧ attempts e1.trace = 1)) := by
  refine ⟨?_, ?_, ?_⟩
  · intro tr i r c resp m hN hc hd hs
    exact ⟨_, doAttempt_of_non200 hN hc hd hs, rfl, rfl, rfl⟩
  · intro tr i r c b m hN hc hd
    exact ⟨_, doAttempt_of_ok hN hc hd, rfl, rfl⟩
  · intro tr404 tr500 trErr r c n fuel hN hc hretry hn hfuel h404 h500 hErr
    have hfErr : ∀ i w, (trErr i c w).Fails := by
      intro i w
      obtain ⟨err, m, h⟩ := hErr i w
      rw [h]; trivial
    have hreturns : ∀ l : Logger, n = 0 ∨ r.logger = some l →
        ∃ e1 e2 e3, r.DoHttpRequest env tr404 fuel = some e1 ∧
          r.DoHttpRequest env tr500 fuel = some e2 ∧
          r.DoHttpRequest env trErr fuel = some e3 ∧
          e1.out = e2.out ∧
          attempts e1.trace = attempts e2.trace ∧ attempts e2.trace = attempts e3.trace ∧
          logs e1.trace = logs e2.trace ∧ logs e2.trace = logs e3.trace ∧
          sleeps e1.trace = sleeps e2.trace ∧ sleeps e2.trace = sleeps e3.trace ∧
          e1.out = .returned none (some Error.Not200) ∧ attempts e1.trace = n + 1 := by
      intro l hl
      obtain ⟨e1, h1, o1, a1, l1, s1⟩ := exhausted_of_status env tr404 r c l n 404 hN hc hl
        hretry hn (by decide) h404 fuel hfuel
      obtain ⟨e2, h2, o2, a2, l2, s2⟩ := exhausted_of_status env tr500 r c l n 500 hN hc hl
        hretry hn (by decide) h500 fuel hfuel
      obtain ⟨a, err, -, -, h3⟩ := exhausted_of_transport_fails env trErr r c l n hc hl hretry
        hn hfErr fuel hfuel
      refine ⟨e1, e2, _, h1, h2, h3, o1.trans o2.symm, a1.trans a2.symm, ?_,
        l1.trans l2.symm, ?_, s1.trans s2.symm, ?_, o1, a1⟩
      · rw [a2]; exact (attempts_exhausted env trErr r l n a.sent).symm
      · rw [l2]; exact (logs_exhausted env trErr r l n a.sent).symm
      · rw [s2]; exact (sleeps_exhausted env trErr r l n a.sent).symm
    cases hlog : r.logger with
    | some l =>
      obtain ⟨e1, e2, e3, h1, h2, h3, ho, ha1, ha2, hl1, hl2, hs1, hs2, hout, hatt⟩ :=
        hreturns l (Or.inr hlog)
      exact ⟨e1, e2, e3, h1, h2, h3, ho, ha1, ha2, hl1, hl2, hs1, hs2, fun _ => ⟨hout, hatt⟩,
        fun _ h => Option.noConfusion h⟩
    | none =>
      by_cases h0 : n = 0
      · obtain ⟨e1, e2, e3, h1, h2, h3, ho, ha1, ha2, hl1, hl2, hs1, hs2, hout, hatt⟩ :=
          hreturns DefaultLog (Or.inl h0)
        exact ⟨e1, e2, e3, h1, h2, h3, ho, ha1, ha2, hl1, hl2, hs1, hs2,
          fun _ => ⟨hout, hatt⟩, fun h1n _ => absurd h0 (by omega)⟩
      · have hr0 : r.retry ≠ 0 := by
          rw [hretry]; exact_mod_cast h0
        obtain ⟨a1, -, h1⟩ := nil_logger_panics_of_transport_fails env tr404 r c hc hlog hr0
          (fails_of_status (by decide) h404) fuel (by omega)
        obtain ⟨a2, -, h2⟩ := nil_logger_panics_of_transport_fails env tr500 r c hc hlog hr0
          (fails_of_status (by decide) h500) fuel (by omega)
        obtain ⟨a3, -, h3⟩ := nil_logger_panics_of_transport_fails env trErr r c hc hlog hr0
          hfErr fuel (by omega)
        refine ⟨_, _, _, h1, h2, h3, rfl, rfl, rfl, rfl, rfl, rfl, rfl, ?_,
          fun _ _ => ⟨rfl, rfl, rfl⟩⟩
        rintro (h | h)
        · exact absurd h h0
        · exact absurd rfl h

/-- Witness of C4: status 404, status 200, and the three failing transports
with retry count 1, with the default logger and with a nil logger. -/
theorem non200_is_one_failure_class_witness :
    (∃ a, doAttempt sampleEnv (alwaysStatus 404) 0 (sampleRequest "http://x/y" 1) = some a ∧
      a.res = none ∧ a.err = some Error.Not200 ∧ a.req.response = some ⟨404, .bytes ""⟩) ∧
    (∃ a, doAttempt sampleEnv (alwaysStatus 200) 0 (sampleRequest "http://x/y" 1) = some a ∧
      a.res = some "" ∧ a.err = none) ∧
    (∃ e1 e2 e3,
      (sampleRequest "http://x/y" 1).DoHttpRequest sampleEnv (alwaysStatus 404) 2 = some e1 ∧
      (sampleRequest "http://x/y" 1).DoHttpRequest sampleEnv (alwaysStatus 500) 2 = some e2 ∧
      (sampleRequest "http://x/y" 1).DoHttpRequest sampleEnv alwaysFail 2 = some e3 ∧
      e1.out = e2.out ∧
      attempts e1.trace = attempts e2.trace ∧ attempts e2.trace = attempts e3.trace ∧
      logs e1.trace = logs e2.trace ∧ logs e2.trace = logs e3.trace ∧
      sleeps e1.trace = sleeps e2.trace ∧ sleeps e2.trace = sleeps e3.trace ∧
      e1.out = .returned none (some Error.Not200) ∧ attempts e1.trace = 1 + 1) ∧
    (∃ e1 e2 e3,
      (nilLoggerRequest "http://x/y" 1).DoHttpRequest sampleEnv (alwaysStatus 404) 2 = some e1 ∧
      (nilLoggerRequest "http://x/y" 1).DoHttpRequest sampleEnv (alwaysStatus 500) 2 = some e2 ∧
      (nilLoggerRequest "http://x/y" 1).DoHttpRequest sampleEnv alwaysFail 2 = some e3 ∧
      attempts e1.trace = attempts e2.trace ∧ attempts e2.trace = attempts e3.trace ∧
      e1.out = .panicked ∧ e3.out = .panicked ∧ attempts e1.trace = 1) := by
  refine ⟨(non200_is_one_failure_class sampleEnv).1 (alwaysStatus 404) 0
      (sampleRequest "http://x/y" 1) ⟨0⟩ ⟨404, .bytes ""⟩ 0 (by decide) rfl (by decide)
      (by decide),
    (non200_is_one_failure_class sampleEnv).2.1 (alwaysStatus 200) 0
      (sampleRequest "http://x/y" 1) ⟨0⟩ "" 0 (by decide) rfl (by decide), ?_, ?_⟩
  · obtain ⟨e1, e2, e3, h1, h2, h3, ho, ha1, ha2, hl1, hl2, hs1, hs2, hret, -⟩ :=
      (non200_is_one_failure_class sampleEnv).2.2 (alwaysStatus 404) (alwaysStatus 500)
        alwaysFail (sampleRequest "http://x/y" 1) ⟨0⟩ 1 2 (by decide) rfl rfl (by norm_num)
        (by norm_num)
        (fun _ w => ⟨_, (w.Body.getD "").length, rfl⟩)
        (fun _ w => ⟨_, (w.Body.getD "").length, rfl⟩)
        (fun _ w => ⟨_, (w.Body.getD "").length, rfl⟩)
    obtain ⟨hout, hatt⟩ := hret (Or.inr (by decide))
    exact ⟨e1, e2, e3, h1, h2, h3, ho, ha1, ha2, hl1, hl2, hs1, hs2, hout, hatt⟩
  · obtain ⟨e1, e2, e3, h1, h2, h3, -, ha1, ha2, -, -, -, -, -, hpan⟩ :=
      (non200_is_one_failure_class sampleEnv).2.2 (alwaysStatus 404) (alwaysStatus 500)
        alwaysFail (nilLoggerRequest "http://x/y" 1) ⟨0⟩ 1 2 (by decide) rfl rfl (by norm_num)
        (by norm_num)
        (fun _ w => ⟨_, (w.Body.getD "").length, rfl⟩)
        (fun _ w => ⟨_, (w.Body.getD "").length, rfl⟩)
        (fun _ w => ⟨_, (w.Body.getD "").length, rfl⟩)
    obtain ⟨hp1, hp3, hatt⟩ := hpan le_rfl rfl
    exact ⟨e1, e2, e3, h1, h2, h3, ha1, ha2, hp1, hp3, hatt⟩

/-! ## The error that is returned -/

/-- C5: for every retry count `n ≥ 0`, against attempts `1, ..., n + 1` that
fail with the errors `errs 0, ..., errs n`: `DoHttpRequest` ends, and when the
`n + 1` attempts take place it returns a nil byte result and exactly the error
of the last attempt, `errs n`. The `n + 1` attempts take place when `n = 0` or
the logger is not nil; with a nil logger and `n ≥ 1` the log call of the first
retry panics after one attempt, so there is no such sequence of attempts and
nothing is returned. -/
theorem last_error_is_returned (env : Env) (tr : Transport) (r : Request)
    (n : Nat) (errs : Nat → Error) (hretry : r.retry = n) (hn : (n : Int) < 2 ^ 63)
    (hfail : ∀ j ≤ n, ∃ a, attemptAt env tr r j = some a ∧ a.err = some (errs j))
    (fuel : Nat) (hfuel : n + 1 ≤ fuel) :
    ∃ e, r.DoHttpRequest env tr fuel = some e ∧
      (attempts e.trace = n + 1 → e.out = .returned none (some (errs n))) ∧
      (n = 0 ∨ r.logger ≠ none → attempts e.trace = n + 1) ∧
      (1 ≤ n → r.logger = none → e.out = .panicked ∧ attempts e.trace = 1) := by
  have hreturns : ∀ l : Logger, n = 0 ∨ r.logger = some l →
      ∃ e, r.DoHttpRequest env tr fuel = some e ∧
        (attempts e.trace = n + 1 → e.out = .returned none (some (errs n))) ∧
        (n = 0 ∨ r.logger ≠ none → attempts e.trace = n + 1) ∧
        (1 ≤ n → r.logger = none → e.out = .panicked ∧ attempts e.trace = 1) := by
    intro l hl
    obtain ⟨a, ha, herr⟩ := hfail n le_rfl
    have hres : a.res = none := doAttempt_res_none ha (by simp [herr])
    have hrun := DoHttpRequest_exhausted env tr r l n hl
      (fun j hj => by obtain ⟨a1, h1, h2⟩ := hfail j hj.le; exact ⟨a1, h1, by simp [h2]⟩)
      a ha (by simp [herr]) hretry hn fuel hfuel
    rw [herr, hres] at hrun
    refine ⟨_, hrun, fun _ => rfl, fun _ => attempts_exhausted env tr r l n a.sent, ?_⟩
    intro h1 hnil
    rcases hl with h | h
    · omega
    · rw [hnil] at h
      exact Option.noConfusion h
  cases hlog : r.logger with
  | some l => simpa [hlog] using hreturns l (Or.inr hlog)
  | none =>
    by_cases h0 : n = 0
    · simpa [hlog] using hreturns DefaultLog (Or.inl h0)
    · obtain ⟨a, ha, herr⟩ := hfail 0 (Nat.zero_le n)
      have hr0 : r.retry ≠ 0 := by
        rw [hretry]; exact_mod_cast h0
      refine ⟨_, DoHttpRequest_nil_logger env tr r a ha (by simp [herr]) hr0 hlog fuel
        (by omega), ?_, ?_, fun _ _ => ⟨rfl, rfl⟩⟩
      · intro h
        have h1 : attempts [Event.attempt a.sent] = 1 := rfl
        simp only at h
        omega
      · rintro (h | h)
        · exact absurd h h0
        · exact absurd rfl h

/-- Witness of C5: three attempts failing with three different errors; and the
same transport with a nil logger. -/
theorem last_error_is_returned_witness :
    (∃ e, (sampleRequest "http://x/y" 2).DoHttpRequest sampleEnv
        (failWith fun i => .ext (toString i)) 3 = some e ∧
      e.out = .returned none (some (.ext (toString 2))) ∧ attempts e.trace = 2 + 1) ∧
    (∃ e, (nilLoggerRequest "http://x/y" 2).DoHttpRequest sampleEnv
        (failWith fun i => .ext (toString i)) 3 = some e ∧
      e.out = .panicked ∧ attempts e.trace = 1) := by
  constructor
  · obtain ⟨e, he, hclaim, hatt, -⟩ :=
      last_error_is_returned sampleEnv (failWith fun i => .ext (toString i))
        (sampleRequest "http://x/y" 2) 2 (fun i => .ext (toString i)) rfl
        (by norm_num) (fun j hj => by interval_cases j <;> exact ⟨_, rfl, rfl⟩) 3
        (by norm_num)
    have hk := hatt (Or.inr (by decide))
    exact ⟨e, he, hclaim hk, hk⟩
  · obtain ⟨e, he, -, -, hpan⟩ :=
      last_error_is_returned sampleEnv (failWith fun i => .ext (toString i))
        (nilLoggerRequest "http://x/y" 2) 2 (fun i => .ext (toString i)) rfl
        (by norm_num) (fun j hj => by interval_cases j <;> exact ⟨_, rfl, rfl⟩) 3
        (by norm_num)
    exact ⟨e, he, hpan (by norm_num) rfl⟩

/-! ## The body stream across attempts and executions -/

/-- C6, evaluated: a POST request with the JSON body `{"a":1}` and retry count
1, against a server that reads the request and answers 500. The first attempt
sends the body; the retry hands the drained reader to the transport and sends
an empty body. -/
theorem retry_sends_drained_body :
    ∃ r e,
      NewHttpRequest "POST" "http://x/y"
          [WithJson sampleEnv (.other jsonA1), WithRetry 1] = some r ∧
        r.DoHttpRequest sampleEnv (alwaysStatus 500) 2 = some e ∧
        e.out = .returned none (some Error.Not200) ∧
        (sent e.trace).map WireRequest.Body = [some jsonA1, some ""] :=
  ⟨_, _, rfl, rfl, by decide, by decide⟩

/-- C8, evaluated: a POST request with the JSON body `{"a":1}`, executed twice
against a server that reads the request and answers 200. Both executions
succeed, but the first one drains the body stream of the request, so the
second one sends an empty body instead of the request the first one sent. -/
theorem second_execution_sends_drained_body :
    ∃ r e1 e2,
      NewHttpRequest "POST" "http://x/y" [WithJson sampleEnv (.other jsonA1)] = some r ∧
        r.DoHttpRequest sampleEnv (alwaysStatus 200) 1 = some e1 ∧
        e1.req.DoHttpRequest sampleEnv (alwaysStatus 200) 1 = some e2 ∧
        r.body = some ⟨jsonA1⟩ ∧ e1.req.body = some ⟨""⟩ ∧
        (sent e1.trace).map WireRequest.Body = [some jsonA1] ∧
        (sent e2.trace).map WireRequest.Body = [some ""] ∧
        sent e1.trace ≠ sent e2.trace :=
  ⟨_, _, _, rfl, rfl, rfl, by decide, by decide, by decide, by decide, by decide⟩

/-! ## The retained response -/

theorem retryLoop_req (env : Env) (tr : Transport) (r : Request) (fuel : Nat) :
    ∀ (k : Nat) (lr : Int) (e : Exec),
      retryLoop env tr fuel k lr (stateAfter env tr r k) = some e →
      e.req = stateAfter env tr r (k + attempts e.trace) := by
  induction fuel with
  | zero => intro k lr e h; simp [retryLoop] at h
  | succ fuel ih =>
    intro k lr e h
    rw [retryLoop] at h
    cases ha : doAttempt env tr k (stateAfter env tr r k) with
    | none =>
      rw [ha] at h
      simp only [Option.some.injEq] at h
      subst h
      rfl
    | some a =>
      have hst : stateAfter env tr r (k + 1) = a.req := by simp only [stateAfter, ha]
      rw [ha] at h
      simp only at h
      by_cases h1 : a.err = none
      · rw [if_pos h1] at h
        simp only [Option.some.injEq] at h
        subst h
        exact hst.symm
      · rw [if_neg h1] at h
        by_cases h2 : lr = a.req.retry
        · rw [if_pos h2] at h
          simp only [Option.some.injEq] at h
          subst h
          exact hst.symm
        · rw [if_neg h2] at h
          cases hlog : a.req.logger with
          | none =>
            rw [hlog] at h
            simp only [Option.some.injEq] at h
            subst h
            exact hst.symm
          | some logger =>
            rw [hlog] at h
            simp only at h
            rw [← hst] at h
            cases hrec : retryLoop env tr fuel (k + 1) (wrapInt64 (lr + 1))
                (stateAfter env tr r (k + 1)) with
            | none => rw [hrec] at h; simp at h
            | some e1 =>
              rw [hrec] at h
              simp only [Option.map_some', Option.some.injEq] at h
              subst h
              have := ih (k + 1) _ e1 hrec
              simp only [this]
              congr 1
              simp only [attempts, List.countP_cons]
              simp
              omega

theorem DoHttpRequest_req (env : Env) (tr : Transport) (r : Request) (fuel : Nat) (e : Exec)
    (h : r.DoHttpRequest env tr fuel = some e) :
    e.req = stateAfter env tr r (attempts e.trace) := by
  have := retryLoop_req env tr r fuel 0 0 e h
  simpa using this

theorem stateAfter_response (env : Env) (tr : Transport) (r : Request) (k : Nat) :
    (stateAfter env tr r k).response = lastResponse env tr r k := by
  induction k with
  | zero => rfl
  | succ k ih =>
    simp only [stateAfter, lastResponse, responseAt]
    unfold doAttempt
    cases hN : env.NewRequestErr (stateAfter env tr r k).method (stateAfter env tr r k).url with
    | some err => simpa using ih
    | none =>
      cases hc : (stateAfter env tr r k).client with
      | none => simpa using ih
      | some c =>
        cases hd : tr k c (buildRequest env (stateAfter env tr r k)) with
        | failed err n => simpa [hd] using ih
        | response resp n =>
          simp only [hd]
          by_cases hs : resp.StatusCode ≠ StatusOK
          · rw [if_pos hs]
          · rw [if_neg hs]
            cases hb : resp.Body <;> rfl

theorem doAttempt_of_failed {env : Env} {tr : Transport} {i : Nat} {r : Request} {c : Client}
    {err : Error} {m : Nat} (hc : r.client = some c)
    (hd : tr i c (buildRequest env r) = .failed err m) :
    ∃ a, doAttempt env tr i r = some a ∧ a.err ≠ none ∧ a.req.response = r.response := by
  unfold doAttempt
  cases hN : env.NewRequestErr r.method r.url with
  | some e => exact ⟨_, rfl, by simp, rfl⟩
  | none =>
    simp only [hc, hd]
    exact ⟨_, rfl, by simp, rfl⟩

theorem retryLoop_terminates (env : Env) (tr : Transport) :
    ∀ (d k : Nat) (s : Request) (fuel : Nat), s.retry = ((k + d : Nat) : Int) →
      ((k + d : Nat) : Int) < 2 ^ 63 → d + 1 ≤ fuel →
      ∃ e, retryLoop env tr fuel k k s = some e := by
  intro d
  induction d with
  | zero =>
    intro k s fuel hs hlt hfuel
    obtain ⟨f, rfl⟩ : ∃ f, fuel = f + 1 := ⟨fuel - 1, by omega⟩
    rw [retryLoop]
    cases ha : doAttempt env tr k s with
    | none => exact ⟨_, rfl⟩
    | some a =>
      have hr : a.req.retry = (k : Int) := by
        rw [(doAttempt_sameConfig ha).2.2.2.2.1, hs]; simp
      simp only
      by_cases h1 : a.err = none
      · rw [if_pos h1]; exact ⟨_, rfl⟩
      · rw [if_neg h1, if_pos hr.symm]; exact ⟨_, rfl⟩
  | succ d ih =>
    intro k s fuel hs hlt hfuel
    obtain ⟨f, rfl⟩ : ∃ f, fuel = f + 1 := ⟨fuel - 1, by omega⟩
    rw [retryLoop]
    cases ha : doAttempt env tr k s with
    | none => exact ⟨_, rfl⟩
    | some a =>
      have hr : a.req.retry = ((k + (d + 1) : Nat) : Int) := by
        rw [(doAttempt_sameConfig ha).2.2.2.2.1, hs]
      simp only
      by_cases h1 : a.err = none
      · rw [if_pos h1]; exact ⟨_, rfl⟩
      · have h2 : ¬ ((k : Int) = a.req.retry) := by rw [hr]; push_cast; omega
        rw [if_neg h1, if_neg h2]
        have hw : wrapInt64 ((k : Int) + 1) = ((k + 1 : Nat) : Int) := by
          push_cast
          exact wrapInt64_eq_self (by omega) (by push_cast at hlt; omega)
        rw [hw]
        cases hlog : a.req.logger with
        | none => exact ⟨_, rfl⟩
        | some logger =>
          have hkd : k + 1 + d = k + (d + 1) := by omega
          obtain ⟨e, he⟩ := ih (k + 1) a.req f (by rw [hr, hkd])
            (by rw [hkd]; exact hlt) (by omega)
          simp only [he]
          exact ⟨_, rfl⟩

theorem DoHttpRequest_terminates (env : Env) (tr : Transport) (r : Request) (n : Nat)
    (hretry : r.retry = n) (hn : (n : Int) < 2 ^ 63) (fuel : Nat) (hfuel : n + 1 ≤ fuel) :
    ∃ e, r.DoHttpRequest env tr fuel = some e := by
  have := retryLoop_terminates env tr n 0 r fuel (by simpa using hretry) (by simpa using hn)
    hfuel
  simpa [Request.DoHttpRequest] using this

theorem ProvidedOption.preserves {env : Env} {o : HTTPOption} (ho : ProvidedOption env o)
    (r : Request) (hh : r.header ≠ none) (hc : r.client ≠ none) :
    ∃ r1, o r = some r1 ∧ r1.header ≠ none ∧ r1.client ≠ none ∧
      r1.response = r.response := by
  obtain ⟨h, hh1⟩ := Option.ne_none_iff_exists'.mp hh
  obtain ⟨c, hc1⟩ := Option.ne_none_iff_exists'.mp hc
  cases ho with
  | withLog logger => exact ⟨_, rfl, hh, hc, rfl⟩
  | withQuery query => exact ⟨_, rfl, hh, hc, rfl⟩
  | withTimeout d => simp [WithTimeout, hc1, hh1]
  | withRetry retryTime => exact ⟨_, rfl, hh, hc, rfl⟩
  | withJson body => simp [WithJson, setHeader, hc1, hh1]
  | withFromData body => simp [WithFromData, setHeader, hc1, hh1]
  | withHeader key val => simp [WithHeader, setHeader, hc1, hh1]
  | withMultipartFrom boundary file fromData =>
    simp [WithMultipartFrom, setHeader, hc1, hh1]

theorem applyOptions_provided {env : Env} (opt : List HTTPOption)
    (ho : ∀ o ∈ opt, ProvidedOption env o) :
    ∀ (r : Request), r.header ≠ none → r.client ≠ none →
      ∃ r1, applyOptions r opt = some r1 ∧ r1.header ≠ none ∧ r1.client ≠ none ∧
        r1.response = r.response := by
  induction opt with
  | nil => intro r hh hc; exact ⟨r, rfl, hh, hc, rfl⟩
  | cons o opt ih =>
    intro r hh hc
    obtain ⟨r1, h1, hh1, hc1, hr1⟩ := (ho o (List.mem_cons_self _ _)).preserves r hh hc
    obtain ⟨r2, h2, hh2, hc2, hr2⟩ :=
      ih (fun o1 h => ho o1 (List.mem_cons_of_mem _ h)) r1 hh1 hc1
    exact ⟨r2, by simp [applyOptions, h1, h2], hh2, hc2, hr2.trans hr1⟩

/-- C7: `GetResponse` returns none on a request created by `NewHttpRequest`
with any of the provided options and never executed. An attempt in which the
transport produces a response retains it, whatever its status (so also when
the attempt fails with `Not200`); an attempt that fails at the transport level
leaves the retained handle unchanged. After `DoHttpRequest` returns,
`GetResponse` is the response of the most recent attempt in which the
transport produced a response, also when the whole execution failed with
`Not200` (which it does against a server that always answers a status other
than 200, when the logger is not nil or the retry count is 0; with a nil
logger and a retry count of at least 1 the first retry panics, the response of
the first attempt being retained). -/
theorem GetResponse_is_last_response (env : Env) :
    (∀ (m url : String) (opt : List HTTPOption), (∀ o ∈ opt, ProvidedOption env o) →
      ∃ r, NewHttpRequest m url opt = some r ∧ r.GetResponse = none) ∧
    (∀ (tr : Transport) (i : Nat) (r : Request) (c : Client) (resp : Response) (m : Nat),
      env.NewRequestErr r.method r.url = none → r.client = some c →
      tr i c (buildRequest env r) = .response resp m →
      ∃ a, doAttempt env tr i r = some a ∧ a.req.GetResponse = some resp) ∧
    (∀ (tr : Transport) (i : Nat) (r : Request) (c : Client) (err : Error) (m : Nat),
      r.client = some c → tr i c (buildRequest env r) = .failed err m →
      ∃ a, doAttempt env tr i r = some a ∧ a.err ≠ none ∧
        a.req.GetResponse = r.GetResponse) ∧
    (∀ (tr : Transport) (r : Request) (n fuel : Nat), r.retry = n → (n : Int) < 2 ^ 63 →
      n + 1 ≤ fuel →
      ∃ e, r.DoHttpRequest env tr fuel = some e ∧
        e.req.GetResponse = lastResponse env tr r (attempts e.trace)) ∧
    (∀ (tr : Transport) (r : Request) (fuel : Nat) (e : Exec),
      r.DoHttpRequest env tr fuel = some e →
      e.req.GetResponse = lastResponse env tr r (attempts e.trace)) ∧
    (∀ (tr : Transport) (r : Request) (c : Client) (n fuel : Nat) (resp : Response),
      env.NewRequestErr r.method r.url = none → r.client = some c → r.retry = n →
      (n : Int) < 2 ^ 63 → n + 1 ≤ fuel → resp.StatusCode ≠ StatusOK →
      (∀ i w, ∃ m, tr i c w = .response resp m) →
      ∃ e, r.DoHttpRequest env tr fuel = some e ∧ e.req.GetResponse = some resp ∧
        (n = 0 ∨ r.logger ≠ none → e.out = .returned none (some Error.Not200)) ∧
        (1 ≤ n → r.logger = none → e.out = .panicked)) := by
  have hexec : ∀ (tr : Transport) (r : Request) (fuel : Nat) (e : Exec),
      r.DoHttpRequest env tr fuel = some e →
      e.req.GetResponse = lastResponse env tr r (attempts e.trace) := by
    intro tr r fuel e h
    rw [Request.GetResponse, DoHttpRequest_req env tr r fuel e h, stateAfter_response]
  refine ⟨?_, ?_, ?_, ?_, hexec, ?_⟩
  · intro m url opt ho
    obtain ⟨r1, h1, -, -, hr⟩ := applyOptions_provided opt ho
      { method := m, url := url, body := none, header := some ∅, query := some ∅, retry := 0,
        client := some ⟨0⟩, response := none, logger := some DefaultLog } (by simp) (by simp)
    exact ⟨r1, h1, hr⟩
  · intro tr i r c resp m hN hc hd
    by_cases hs : resp.StatusCode ≠ StatusOK
    · exact ⟨_, doAttempt_of_non200 hN hc hd hs, rfl⟩
    · unfold doAttempt
      rw [hN]
      simp only [hc, hd]
      rw [if_neg hs]
      cases resp.Body with
      | failed err => exact ⟨_, rfl, rfl⟩
      | bytes b => exact ⟨_, rfl, rfl⟩
  · intro tr i r c err m hc hd
    exact doAttempt_of_failed hc hd
  · intro tr r n fuel hretry hn hfuel
    obtain ⟨e, he⟩ := DoHttpRequest_terminates env tr r n hretry hn fuel hfuel
    exact ⟨e, he, hexec tr r fuel e he⟩
  · intro tr r c n fuel resp hN hc hretry hn hfuel hs hst
    have hst2 : ∀ i w, ∃ body m, tr i c w = .response ⟨resp.StatusCode, body⟩ m :=
      fun i w => by obtain ⟨m, hm⟩ := hst i w; exact ⟨resp.Body, m, hm⟩
    have hlast : ∀ k, lastResponse env tr r (k + 1) = some resp := by
      intro k
      rw [lastResponse, responseAt]
      have hcfg := stateAfter_sameConfig env tr r k
      obtain ⟨m, hm⟩ := hst k (buildRequest env (stateAfter env tr r k))
      simp only [hcfg.1, hcfg.2.1, hN, hcfg.2.2.2.2.2.1, hc, hm]
    have hreturns : ∀ l : Logger, n = 0 ∨ r.logger = some l →
        ∃ e, r.DoHttpRequest env tr fuel = some e ∧ e.req.GetResponse = some resp ∧
          e.out = .returned none (some Error.Not200) := by
      intro l hl
      obtain ⟨e, he, hout, hatt, -, -⟩ := exhausted_of_status env tr r c l n resp.StatusCode
        hN hc hl hretry hn hs hst2 fuel hfuel
      exact ⟨e, he, by rw [hexec tr r fuel e he, hatt, hlast], hout⟩
    cases hlog : r.logger with
    | some l =>
      obtain ⟨e, he, hget, hout⟩ := hreturns l (Or.inr hlog)
      exact ⟨e, he, hget, fun _ => hout, fun _ h => Option.noConfusion h⟩
    | none =>
      by_cases h0 : n = 0
      · obtain ⟨e, he, hget, hout⟩ := hreturns DefaultLog (Or.inl h0)
        exact ⟨e, he, hget, fun _ => hout, fun h1n _ => absurd h0 (by omega)⟩
      · have hr0 : r.retry ≠ 0 := by
          rw [hretry]; exact_mod_cast h0
        obtain ⟨a, -, he⟩ := nil_logger_panics_of_transport_fails env tr r c hc hlog hr0
          (fails_of_status hs hst2) fuel (by omega)
        refine ⟨_, he, ?_, ?_, fun _ _ => rfl⟩
        · rw [hexec tr r fuel _ he]
          exact hlast 0
        · rintro (h | h)
          · exact absurd h h0
          · exact absurd rfl h

/-- Witness of C7: a fresh request with two options, one attempt answered 404,
one attempt that fails at the transport level, and executions with retry
count 1 against a server that answers 404, with the default logger and with a
nil logger. -/
theorem GetResponse_is_last_response_witness :
    (∃ r, NewHttpRequest "GET" "http://x/y" [WithHeader "X" "1", WithRetry 2] = some r ∧
      r.GetResponse = none) ∧
    (∃ a, doAttempt sampleEnv (alwaysStatus 404) 0 (sampleRequest "http://x/y" 1) = some a ∧
      a.req.GetResponse = some ⟨404, .bytes ""⟩) ∧
    (∃ a, doAttempt sampleEnv alwaysFail 0 (sampleRequest "http://x/y" 1) = some a ∧
      a.err ≠ none ∧ a.req.GetResponse = (sampleRequest "http://x/y" 1).GetResponse) ∧
    (∃ e, (sampleRequest "http://x/y" 1).DoHttpRequest sampleEnv (alwaysStatus 404) 2 = some e ∧
      e.req.GetResponse =
        lastResponse sampleEnv (alwaysStatus 404) (sampleRequest "http://x/y" 1)
          (attempts e.trace)) ∧
    (∃ e, (sampleRequest "http://x/y" (-1)).DoHttpRequest sampleEnv (succeedAt 1 "ok") 2 =
        some e ∧
      e.req.GetResponse =
        lastResponse sampleEnv (succeedAt 1 "ok") (sampleRequest "http://x/y" (-1))
          (attempts e.trace)) ∧
    (∃ e, (sampleRequest "http://x/y" 1).DoHttpRequest sampleEnv (alwaysStatus 404) 2 = some e ∧
      e.req.GetResponse = some ⟨404, .bytes ""⟩ ∧
      e.out = .returned none (some Error.Not200)) ∧
    (∃ e, (nilLoggerRequest "http://x/y" 1).DoHttpRequest sampleEnv (alwaysStatus 404) 2 =
        some e ∧
      e.req.GetResponse = some ⟨404, .bytes ""⟩ ∧ e.out = .panicked) := by
  refine ⟨(GetResponse_is_last_response sampleEnv).1 "GET" "http://x/y"
      [WithHeader "X" "1", WithRetry 2]
      (fun o ho => by
        simp only [List.mem_cons, List.mem_singleton, List.not_mem_nil, or_false] at ho
        rcases ho with rfl | rfl
        · exact .withHeader "X" "1"
        · exact .withRetry 2),
    (GetResponse_is_last_response sampleEnv).2.1 (alwaysStatus 404) 0
      (sampleRequest "http://x/y" 1) ⟨0⟩ ⟨404, .bytes ""⟩ 0 (by decide) rfl (by decide),
    (GetResponse_is_last_response sampleEnv).2.2.1 alwaysFail 0
      (sampleRequest "http://x/y" 1) ⟨0⟩ (.ext "dial tcp: connection refused") 0 rfl
      (by decide),
    (GetResponse_is_last_response sampleEnv).2.2.2.1 (alwaysStatus 404)
      (sampleRequest "http://x/y" 1) 1 2 rfl (by norm_num) (by norm_num),
    ⟨_, rfl, (GetResponse_is_last_response sampleEnv).2.2.2.2.1 (succeedAt 1 "ok")
      (sampleRequest "http://x/y" (-1)) 2 _ rfl⟩, ?_, ?_⟩
  · obtain ⟨e, he, hget, hout, -⟩ :=
      (GetResponse_is_last_response sampleEnv).2.2.2.2.2 (alwaysStatus 404)
        (sampleRequest "http://x/y" 1) ⟨0⟩ 1 2 ⟨404, .bytes ""⟩ (by decide) rfl rfl
        (by norm_num) (by norm_num) (by decide) (fun _ w => ⟨(w.Body.getD "").length, rfl⟩)
    exact ⟨e, he, hget, hout (Or.inr (by decide))⟩
  · obtain ⟨e, he, hget, -, hpan⟩ :=
      (GetResponse_is_last_response sampleEnv).2.2.2.2.2 (alwaysStatus 404)
        (nilLoggerRequest "http://x/y" 1) ⟨0⟩ 1 2 ⟨404, .bytes ""⟩ (by decide) rfl rfl
        (by norm_num) (by norm_num) (by decide) (fun _ w => ⟨(w.Body.getD "").length, rfl⟩)
    exact ⟨e, he, hget, hpan le_rfl rfl⟩

/-! ## The trace of an execution that returns -/

theorem doAttempt_isSome {env : Env} {tr : Transport} {i : Nat} {r : Request} {c : Client}
    (hc : r.client = some c) : ∃ a, doAttempt env tr i r = some a := by
  unfold doAttempt
  cases hN : env.NewRequestErr r.method r.url with
  | some e => exact ⟨_, rfl⟩
  | none =>
    simp only [hc]
    cases hd : tr i c (buildRequest env r) with
    | failed err n => exact ⟨_, rfl⟩
    | response resp n =>
      simp only
      by_cases hs : resp.StatusCode ≠ StatusOK
      · rw [if_pos hs]; exact ⟨_, rfl⟩
      · rw [if_neg hs]
        cases resp.Body with
        | failed err => exact ⟨_, rfl⟩
        | bytes b => exact ⟨_, rfl⟩

theorem retryLoop_trace (env : Env) (tr : Transport) (r : Request) (c : Client) (l : Logger)
    (n : Nat) (hc : r.client = some c) (hl : r.logger = some l) (hretry : r.retry = n)
    (hn : (n : Int) < 2 ^ 63) (fuel : Nat) :
    ∀ (k : Nat) (e : Exec), k ≤ n →
      retryLoop env tr fuel k k (stateAfter env tr r k) = some e →
      ∃ m s, k ≤ m ∧ m ≤ n ∧ e.out ≠ .panicked ∧
        retryPrefix env tr r l k ++ e.trace = retryPrefix env tr r l m ++ [.attempt s] := by
  induction fuel with
  | zero => intro k e _ h; simp [retryLoop] at h
  | succ fuel ih =>
    intro k e hk h
    have hcfg := stateAfter_sameConfig env tr r k
    obtain ⟨a, ha⟩ := @doAttempt_isSome env tr k _ c (hcfg.2.2.2.2.2.1.trans hc)
    have hcfg1 := hcfg.trans (doAttempt_sameConfig ha)
    have hlog : a.req.logger = some l := hcfg1.2.2.2.2.2.2.trans hl
    have hst : stateAfter env tr r (k + 1) = a.req := by simp only [stateAfter, ha]
    have hsent : sentAt env tr r k = a.sent := by simp [sentAt, attemptAt, ha]
    rw [retryLoop, ha] at h
    simp only at h
    by_cases h1 : a.err = none
    · rw [if_pos h1] at h
      simp only [Option.some.injEq] at h
      subst h
      exact ⟨k, a.sent, le_rfl, hk, by simp, rfl⟩
    · rw [if_neg h1] at h
      by_cases h2 : (k : Int) = a.req.retry
      · rw [if_pos h2] at h
        simp only [Option.some.injEq] at h
        subst h
        exact ⟨k, a.sent, le_rfl, hk, by simp, rfl⟩
      · rw [if_neg h2] at h
        have hkn : k < n := by
          rw [hcfg1.2.2.2.2.1, hretry] at h2
          have : k ≠ n := fun h => h2 (by rw [h])
          omega
        have hw : wrapInt64 ((k : Int) + 1) = ((k + 1 : Nat) : Int) := by
          push_cast
          exact wrapInt64_eq_self (by omega) (by omega)
        rw [hw, hlog] at h
        simp only at h
        rw [← hst] at h
        cases hrec : retryLoop env tr fuel (k + 1) ((k + 1 : Nat) : Int)
            (stateAfter env tr r (k + 1)) with
        | none => rw [hrec] at h; simp at h
        | some e1 =>
          rw [hrec] at h
          simp only [Option.map_some', Option.some.injEq] at h
          subst h
          obtain ⟨m, s, hm1, hm2, hout, htr⟩ := ih (k + 1) e1 (by omega) hrec
          refine ⟨m, s, by omega, hm2, hout, ?_⟩
          rw [← htr, retryPrefix, hsent, hst, hcfg1.2.1]
          push_cast
          simp

theorem DoHttpRequest_trace (env : Env) (tr : Transport) (r : Request) (c : Client)
    (l : Logger) (n : Nat) (hc : r.client = some c) (hl : r.logger = some l)
    (hretry : r.retry = n) (hn : (n : Int) < 2 ^ 63) (fuel : Nat)
    (e : Exec) (h : r.DoHttpRequest env tr fuel = some e) :
    ∃ m s, m ≤ n ∧ e.out ≠ .panicked ∧
      e.trace = retryPrefix env tr r l m ++ [.attempt s] := by
  obtain ⟨m, s, -, hm, hout, htr⟩ := retryLoop_trace env tr r c l n hc hl hretry hn fuel 0 e
    (Nat.zero_le n) h
  exact ⟨m, s, hm, hout, by simpa [retryPrefix] using htr⟩

theorem retryPrefix_split (env : Env) (tr : Transport) (r : Request) (l : Logger) (m : Nat) :
    ∀ i, i ≤ m → ∃ post, retryPrefix env tr r l m = retryPrefix env tr r l i ++ post ∧
      (post = [] ∨ ∃ w rest, post = Event.attempt w :: rest) := by
  induction m with
  | zero =>
    intro i hi
    obtain rfl : i = 0 := by omega
    exact ⟨[], by simp, Or.inl rfl⟩
  | succ m ih =>
    intro i hi
    rcases Nat.lt_or_ge i (m + 1) with hlt | hge
    · obtain ⟨post, hp, hshape⟩ := ih i (by omega)
      refine ⟨post ++ [.attempt (sentAt env tr r m),
        .log l (retryMessage r.url ((m : Int) + 1)),
        .sleep (backoff ((m : Int) + 1))], by rw [retryPrefix, hp, List.append_assoc], ?_⟩
      right
      rcases hshape with rfl | ⟨w, rest, rfl⟩
      · exact ⟨_, _, rfl⟩
      · exact ⟨w, _, rfl⟩
    · obtain rfl : i = m + 1 := by omega
      exact ⟨[], by simp, Or.inl rfl⟩

theorem DoHttpRequest_sameConfig (env : Env) (tr : Transport) (r : Request) (fuel : Nat)
    (e : Exec) (h : r.DoHttpRequest env tr fuel = some e) : SameConfig r e.req := by
  rw [DoHttpRequest_req env tr r fuel e h]
  exact stateAfter_sameConfig env tr r _

/-! ## Retries: log message and backoff -/

theorem DoHttpRequest_nil_logger_trace (env : Env) (tr : Transport) (r : Request) (c : Client)
    (hc : r.client = some c) (hl : r.logger = none) (fuel : Nat) (hfuel : 1 ≤ fuel) :
    ∃ e a, attemptAt env tr r 0 = some a ∧ r.DoHttpRequest env tr fuel = some e ∧
      e.trace = [.attempt a.sent] ∧ (e.out = .panicked ↔ a.err ≠ none ∧ r.retry ≠ 0) := by
  obtain ⟨f, rfl⟩ : ∃ f, fuel = f + 1 := ⟨fuel - 1, by omega⟩
  obtain ⟨a, ha⟩ := @doAttempt_isSome env tr 0 r c hc
  have hcfg := doAttempt_sameConfig ha
  have hlog : a.req.logger = none := hcfg.2.2.2.2.2.2.trans hl
  have hret : a.req.retry = r.retry := hcfg.2.2.2.2.1
  unfold Request.DoHttpRequest
  rw [retryLoop, ha]
  simp only
  by_cases h1 : a.err = none
  · rw [if_pos h1]
    exact ⟨_, a, ha, rfl, rfl, by simp [h1]⟩
  · rw [if_neg h1]
    by_cases h2 : (0 : Int) = a.req.retry
    · rw [if_pos h2]
      refine ⟨_, a, ha, rfl, rfl, ?_⟩
      have h3 : r.retry = 0 := by rw [← hret, ← h2]
      simp [h3]
    · rw [if_neg h2, hlog]
      refine ⟨_, a, ha, rfl, rfl, ?_⟩
      have h3 : r.retry ≠ 0 := fun h => h2 (by rw [hret, h])
      simp [h1, h3]

/-- C9 (amended): an execution with retry count `n ≥ 0` ends after `m + 1 ≤ n + 1`
attempts and the number of its log messages is the number of attempts minus
one. When the logger `l` of the request is not nil, the execution returns and
its log messages are exactly those of the retries `1, ..., m`, one each, sent
to `l` and naming the URL and the retry number; the log message of retry `i`
comes after attempt `i`, is followed by one sleep and then by the next attempt,
and the argument of that sleep is `200ms × i` for `i ≤ 46116860184`. When the
logger is nil, the execution makes one attempt and emits no log message and no
sleep: if that attempt fails and the retry count is not 0, the log call of the
first retry panics. -/
theorem retry_log_and_backoff (env : Env) (tr : Transport) (r : Request) (c : Client)
    (n fuel : Nat) (hc : r.client = some c)
    (hretry : r.retry = n) (hn : (n : Int) < 2 ^ 63) (hfuel : n + 1 ≤ fuel) :
    ∃ e m, r.DoHttpRequest env tr fuel = some e ∧
      attempts e.trace = m + 1 ∧ m ≤ n ∧
      (logs e.trace).length = attempts e.trace - 1 ∧
      (∀ l, r.logger = some l →
        e.out ≠ .panicked ∧
        logs e.trace =
          (List.range m).map (fun (j : Nat) => (l, retryMessage r.url ((j : Int) + 1))) ∧
        ∀ i : Nat, 1 ≤ i → i ≤ m →
          retryMessage r.url i =
            "请求[" ++ r.url ++ "]失败,进行" ++ toString (i : Int) ++ "次重试..." ∧
          (∃ pre w post,
            e.trace = pre ++ [.log l (retryMessage r.url i), .sleep (backoff i),
              .attempt w] ++ post ∧
            attempts pre = i ∧ (logs pre).length = i - 1) ∧
          (i ≤ maxBackoffRetry → backoff i = 200 * (i : Int) * Millisecond)) ∧
      (r.logger = none →
        m = 0 ∧ logs e.trace = [] ∧ sleeps e.trace = [] ∧
        ∃ a, attemptAt env tr r 0 = some a ∧
          (e.out = .panicked ↔ a.err ≠ none ∧ r.retry ≠ 0)) := by
  cases hlog : r.logger with
  | none =>
    obtain ⟨e, a, ha, he, htr, hout⟩ :=
      DoHttpRequest_nil_logger_trace env tr r c hc hlog fuel (by omega)
    refine ⟨e, 0, he, by rw [htr]; rfl, Nat.zero_le n, by rw [htr]; rfl,
      fun l h => Option.noConfusion h,
      fun _ => ⟨rfl, by rw [htr]; rfl, by rw [htr]; rfl, a, ha, hout⟩⟩
  | some l =>
    obtain ⟨e, he⟩ := DoHttpRequest_terminates env tr r n hretry hn fuel hfuel
    obtain ⟨m, s, hm, hout, htr⟩ :=
      DoHttpRequest_trace env tr r c l n hc hlog hretry hn fuel e he
    have hlogs := logs_exhausted env tr r l m s
    have hatt := attempts_exhausted env tr r l m s
    rw [← htr] at hlogs hatt
    refine ⟨e, m, he, hatt, hm, by rw [hlogs, hatt]; simp, ?_,
      fun h => Option.noConfusion h⟩
    intro l1 hl1
    obtain rfl : l = l1 := Option.some.inj hl1
    refine ⟨hout, hlogs, ?_⟩
    intro i hi1 him
    refine ⟨rfl, ?_, fun hb => backoff_eq (by omega) (by exact_mod_cast hb)⟩
    obtain ⟨i, rfl⟩ : ∃ i0, i = i0 + 1 := ⟨i - 1, by omega⟩
    obtain ⟨post, hp, hshape⟩ := retryPrefix_split env tr r l m (i + 1) him
    have hpre : attempts (retryPrefix env tr r l i ++ [Event.attempt (sentAt env tr r i)]) =
        i + 1 := attempts_exhausted env tr r l i _
    have hlpre : (logs (retryPrefix env tr r l i ++
        [Event.attempt (sentAt env tr r i)])).length = i + 1 - 1 := by
      rw [logs_exhausted]; simp
    rcases hshape with rfl | ⟨w, rest, rfl⟩
    · refine ⟨retryPrefix env tr r l i ++ [.attempt (sentAt env tr r i)], s, [], ?_, hpre,
        hlpre⟩
      rw [htr, hp, retryPrefix]
      push_cast
      simp
    · refine ⟨retryPrefix env tr r l i ++ [.attempt (sentAt env tr r i)], w,
        rest ++ [.attempt s], ?_, hpre, hlpre⟩
      rw [htr, hp, retryPrefix]
      push_cast
      simp

/-- Witness of C9: retry count 2 against a transport that always fails, the
first retry; and the same with a nil logger. -/
theorem retry_log_and_backoff_witness :
    (∃ e, (sampleRequest "http://x/y" 2).DoHttpRequest sampleEnv alwaysFail 3 = some e ∧
      e.out ≠ .panicked ∧ attempts e.trace = 3 ∧
      logs e.trace =
        [(DefaultLog, "请求[http://x/y]失败,进行1次重试..."),
          (DefaultLog, "请求[http://x/y]失败,进行2次重试...")] ∧
      (logs e.trace).length = attempts e.trace - 1 ∧
      (∃ pre w post,
        e.trace = pre ++ [.log DefaultLog "请求[http://x/y]失败,进行1次重试...",
          .sleep (200 * Millisecond), .attempt w] ++ post ∧
        attempts pre = 1 ∧ (logs pre).length = 0)) ∧
    (∃ e, (nilLoggerRequest "http://x/y" 2).DoHttpRequest sampleEnv alwaysFail 3 = some e ∧
      attempts e.trace = 1 ∧ logs e.trace = [] ∧ sleeps e.trace = [] ∧
      (logs e.trace).length = attempts e.trace - 1) := by
  constructor
  · obtain ⟨e, m, he, hatt, hm, hlen, hsome, -⟩ :=
      retry_log_and_backoff sampleEnv alwaysFail (sampleRequest "http://x/y" 2) ⟨0⟩
        2 3 rfl rfl (by norm_num) (by norm_num)
    obtain ⟨hout, hlogs, hall⟩ := hsome DefaultLog rfl
    obtain ⟨a, err, -, -, hrun⟩ :=
      exhausted_of_transport_fails sampleEnv alwaysFail (sampleRequest "http://x/y" 2) ⟨0⟩
        DefaultLog 2 rfl (Or.inr rfl) rfl (by norm_num) (fun _ _ => trivial) 3 (by norm_num)
    have he2 := Option.some.inj (he.symm.trans hrun)
    have hatt3 : attempts e.trace = 3 := by rw [he2]; exact attempts_exhausted _ _ _ _ 2 _
    obtain rfl : m = 2 := by omega
    obtain ⟨-, ⟨pre, w, post, htr, hpre, hlpre⟩, hb⟩ := hall 1 (by norm_num) (by norm_num)
    have hb1 : backoff ((1 : Nat) : Int) = 200 * Millisecond := by
      rw [hb (by decide)]; norm_num
    refine ⟨e, he, hout, hatt3, by rw [hlogs]; decide, hlen, pre, w, post, ?_, hpre, hlpre⟩
    rw [htr, hb1]
    rfl
  · obtain ⟨e, m, he, hatt, -, hlen, -, hnil⟩ :=
      retry_log_and_backoff sampleEnv alwaysFail (nilLoggerRequest "http://x/y" 2) ⟨0⟩
        2 3 rfl rfl (by norm_num) (by norm_num)
    obtain ⟨rfl, hlogs, hsl, -⟩ := hnil rfl
    exact ⟨e, he, hatt, hlogs, hsl, hlen⟩

/-- Counterexample to C9 as stated, on two inputs. With retry count 46116860185
against a transport that always fails, the log message of retry 46116860185 is
followed by a sleep whose argument is negative, not `200ms × 46116860185`. With
the nil logger that `WithLog(nil)` stores and retry count 1, the first retry
emits no log message: the call `r.logger.Error` panics. -/
theorem backoff_of_last_retry_overflows :
    (∃ e pre w, (sampleRequest "http://x/y" 46116860185).DoHttpRequest sampleEnv alwaysFail
        46116860186 = some e ∧
      e.trace = pre ++ [.log DefaultLog (retryMessage "http://x/y" 46116860185),
        .sleep (-9223372036709551616), .attempt w] ∧
      (-9223372036709551616 : Int) ≠ 200 * 46116860185 * Millisecond) ∧
    (∃ r e, NewHttpRequest "POST" "http://x/y" [WithLog none, WithRetry 1] = some r ∧
      r.DoHttpRequest sampleEnv alwaysFail 2 = some e ∧
      e.out = .panicked ∧ logs e.trace = [] ∧ sleeps e.trace = [] ∧
      attempts e.trace = 1) := by
  constructor
  · obtain ⟨a, err, -, -, hrun⟩ :=
      exhausted_of_transport_fails sampleEnv alwaysFail
        (sampleRequest "http://x/y" 46116860185) ⟨0⟩ DefaultLog 46116860185 rfl (Or.inr rfl)
        rfl (by norm_num) (fun _ _ => trivial) 46116860186 (by norm_num)
    refine ⟨_, retryPrefix sampleEnv alwaysFail (sampleRequest "http://x/y" 46116860185)
        DefaultLog maxBackoffRetry ++ [.attempt (sentAt sampleEnv alwaysFail
          (sampleRequest "http://x/y" 46116860185) maxBackoffRetry)], a.sent, hrun, ?_,
      by decide⟩
    simp only
    rw [show (46116860185 : Nat) = maxBackoffRetry + 1 from rfl, retryPrefix, backoff_overflow]
    simp [sampleRequest, DefaultLog, maxBackoffRetry]
  · exact ⟨_, _, rfl, rfl, by decide, by decide, by decide, by decide⟩

/-! ## Headers -/

theorem headerAdd_filter (env : Env) (K : String) (acc : List (String × List String))
    (A : List String) (k v : String)
    (hacc : acc.filter (fun e => e.1 = K) = if A = [] then [] else [(K, A)]) :
    (headerAdd env acc k v).filter (fun e => e.1 = K) =
      if A ++ (if env.CanonicalKey k = K then [v] else []) = [] then []
      else [(K, A ++ (if env.CanonicalKey k = K then [v] else []))] := by
  unfold headerAdd
  by_cases hK : env.CanonicalKey k = K
  · subst hK
    simp only [if_true, List.append_eq_nil, List.cons_ne_self, and_false, if_false]
    by_cases hany : acc.any (fun e => e.1 = env.CanonicalKey k) = true
    · simp only [hany, if_true]
      rw [List.filter_map]
      have hcomp : ((fun e : String × List String => decide (e.1 = env.CanonicalKey k)) ∘
          fun e => if e.1 = env.CanonicalKey k then (e.1, e.2 ++ [v]) else e) =
          fun e => decide (e.1 = env.CanonicalKey k) := by
        funext e
        by_cases he : e.1 = env.CanonicalKey k <;> simp [he]
      rw [hcomp, hacc]
      by_cases hA : A = []
      · exfalso
        rw [if_pos hA, List.filter_eq_nil_iff] at hacc
        obtain ⟨e, he, hk⟩ := List.any_eq_true.mp hany
        exact hacc e he hk
      · simp [hA]
    · simp only [hany, Bool.false_eq_true, if_false]
      have hnil : acc.filter (fun e => e.1 = env.CanonicalKey k) = [] := by
        rw [List.filter_eq_nil_iff]
        intro e he hk
        exact hany (List.any_eq_true.mpr ⟨e, he, hk⟩)
      have hA : A = [] := by
        by_contra hA
        rw [hnil, if_neg hA] at hacc
        exact List.cons_ne_nil _ _ hacc.symm
      subst hA
      simp [List.filter_append, hnil]
  · simp only [hK, if_false, List.append_nil]
    by_cases hany : acc.any (fun e => e.1 = env.CanonicalKey k) = true
    · simp only [hany, if_true]
      rw [← hacc, List.filter_map]
      have hcomp : ((fun e : String × List String => decide (e.1 = K)) ∘
          fun e => if e.1 = env.CanonicalKey k then (e.1, e.2 ++ [v]) else e) =
          fun e => decide (e.1 = K) := by
        funext e
        by_cases he : e.1 = env.CanonicalKey k <;> simp [he]
      rw [hcomp]
      conv_rhs => rw [← List.map_id (List.filter (fun e => decide (e.1 = K)) acc)]
      apply List.map_congr_left
      intro e he
      have hk : e.1 = K := by simpa using (List.mem_filter.mp he).2
      have : ¬ e.1 = env.CanonicalKey k := fun h => hK (h.symm.trans hk)
      simp [this]
    · simp only [hany, Bool.false_eq_true, if_false]
      rw [← hacc, List.filter_append]
      simp [hK]

theorem foldl_headerAdd_filter (env : Env) (K : String) (L : List (Σ _ : String, String)) :
    ∀ (acc : List (String × List String)) (A : List String),
      (acc.filter (fun e => e.1 = K) = if A = [] then [] else [(K, A)]) →
      (L.foldl (fun acc e => headerAdd env acc e.1 e.2) acc).filter (fun e => e.1 = K) =
        if A ++ valuesFor env K L = [] then [] else [(K, A ++ valuesFor env K L)] := by
  induction L with
  | nil => intro acc A h; simpa [valuesFor] using h
  | cons e L ih =>
    intro acc A h
    have h1 := headerAdd_filter env K acc A e.1 e.2 h
    have h2 := ih _ _ h1
    rw [List.foldl_cons, h2]
    by_cases hK : env.CanonicalKey e.1 = K <;> simp [valuesFor, hK, List.filterMap_cons]

theorem buildHeader_filter (env : Env) (K : String) (h : GoMap String) :
    (buildHeader env (some h)).filter (fun e => e.1 = K) =
      if valuesFor env K h.entries = [] then [] else [(K, valuesFor env K h.entries)] := by
  have := foldl_headerAdd_filter env K h.entries [] [] (by simp)
  simpa [buildHeader] using this

theorem valuesFor_erase (env : Env) (h : GoMap String) (k : String)
    (hcanon : ∀ k1 ∈ h.keys, k1 ≠ k → env.CanonicalKey k1 ≠ env.CanonicalKey k) :
    valuesFor env (env.CanonicalKey k) (h.erase k).entries = [] := by
  unfold valuesFor
  rw [List.filterMap_eq_nil_iff]
  intro e he
  have hk : e.1 ∈ (h.erase k).keys := List.mem_keys_of_mem he
  rw [← AList.mem_keys, AList.mem_erase] at hk
  simp [hcanon e.1 (AList.mem_keys.mp hk.2) hk.1]

theorem WithHeader_bind (r : Request) (h : GoMap String) (k v1 v2 : String)
    (hh : r.header = some h) :
    (WithHeader k v1 r).bind (WithHeader k v2) =
      some { r with header := some (h.insert k v2) } := by
  simp [WithHeader, setHeader, hh, AList.insert_insert]

/-- C10 (amended): applying `WithHeader(k, v1)` and then `WithHeader(k, v2)` to
a request leaves exactly one entry for `k` in the header mapping, with value
`v2`, every other header entry and every other field unchanged; when no other
key of the mapping has the canonical form of `k`, the request sent on the wire
carries exactly one header with that canonical key, with the single value
`v2`. Applying `WithHeader(k, v)` twice has the same effect as applying it
once, and applying `v1` then `v2` the same effect as applying `v2` alone. -/
theorem WithHeader_last_wins (env : Env) (r : Request) (h : GoMap String) (k v1 v2 : String)
    (hh : r.header = some h) :
    ∃ h2, (WithHeader k v1 r).bind (WithHeader k v2) = some { r with header := some h2 } ∧
      h2.lookup k = some v2 ∧ h2.keys.count k = 1 ∧
      (∀ k1, k1 ≠ k → h2.lookup k1 = h.lookup k1) ∧
      ((∀ k1 ∈ h.keys, k1 ≠ k → env.CanonicalKey k1 ≠ env.CanonicalKey k) →
        (buildRequest env { r with header := some h2 }).Header.filter
            (fun e => e.1 = env.CanonicalKey k) = [(env.CanonicalKey k, [v2])]) ∧
      (WithHeader k v1 r).bind (WithHeader k v1) = WithHeader k v1 r ∧
      (WithHeader k v1 r).bind (WithHeader k v2) = WithHeader k v2 r := by
  refine ⟨h.insert k v2, WithHeader_bind r h k v1 v2 hh, AList.lookup_insert h, ?_, ?_, ?_, ?_,
    ?_⟩
  · exact List.count_eq_one_of_mem (AList.keys_nodup _)
      (AList.mem_keys.mp ((AList.mem_insert h).mpr (Or.inl rfl)))
  · intro k1 hk1
    exact AList.lookup_insert_ne hk1
  · intro hcanon
    have hv : valuesFor env (env.CanonicalKey k) (h.insert k v2).entries = [v2] := by
      rw [AList.insert_entries]
      have := valuesFor_erase env h k hcanon
      simp only [valuesFor, List.filterMap_cons, if_true] at this ⊢
      rw [show List.kerase k h.entries = (h.erase k).entries from rfl, this]
    simp only [buildRequest]
    rw [buildHeader_filter, hv]
    simp
  · rw [WithHeader_bind r h k v1 v1 hh]
    simp [WithHeader, setHeader, hh]
  · rw [WithHeader_bind r h k v1 v2 hh]
    simp [WithHeader, setHeader, hh]

/-- Witness of C10: the header `X` set to `1` and then to `2` on a fresh request. -/
theorem WithHeader_last_wins_witness :
    ∃ h2, (WithHeader "X" "1" (sampleRequest "http://x/y" 0)).bind (WithHeader "X" "2") =
        some { sampleRequest "http://x/y" 0 with header := some h2 } ∧
      h2.lookup "X" = some "2" ∧ h2.keys.count "X" = 1 ∧
      (buildRequest sampleEnv
          { sampleRequest "http://x/y" 0 with header := some h2 }).Header.filter
          (fun e => e.1 = sampleEnv.CanonicalKey "X") = [(sampleEnv.CanonicalKey "X", ["2"])] ∧
      (WithHeader "X" "1" (sampleRequest "http://x/y" 0)).bind (WithHeader "X" "1") =
        WithHeader "X" "1" (sampleRequest "http://x/y" 0) ∧
      (WithHeader "X" "1" (sampleRequest "http://x/y" 0)).bind (WithHeader "X" "2") =
        WithHeader "X" "2" (sampleRequest "http://x/y" 0) := by
  obtain ⟨h2, h1, hl, hc, -, hw, hi1, hi2⟩ :=
    WithHeader_last_wins sampleEnv (sampleRequest "http://x/y" 0) ∅ "X" "1" "2" rfl
  exact ⟨h2, h1, hl, hc, hw (by simp), hi1, hi2⟩

/-- Counterexample to C10 as stated: on a request that already has the header
`x`, setting `X` to `1` and then to `2` sends one header `X` with two values,
because `http.Header.Add` files `x` and `X` under the same canonical key. -/
theorem header_case_variants_share_wire_key :
    ∃ r0 r2, NewHttpRequest "GET" "http://x/y" [WithHeader "x" "0"] = some r0 ∧
      (WithHeader "X" "1" r0).bind (WithHeader "X" "2") = some r2 ∧
      (buildRequest sampleEnv r2).Header = [("X", ["2", "0"])] :=
  ⟨_, _, rfl, rfl, by decide⟩

/-! ## Body options -/

theorem BodyOption.overwrites {env : Env} {A B : HTTPOption} (hA : BodyOption env A)
    (hB : BodyOption env B) (r : Request) (h : GoMap String) (hh : r.header = some h) :
    (A r).bind B = B r := by
  cases hA <;> cases hB <;>
    simp [WithJson, WithFromData, WithMultipartFrom, setHeader, hh, AList.insert_insert]

/-- C11: for every request with a header mapping and every two body-setting
options `A` and `B` among `WithJson`, `WithFromData` and `WithMultipartFrom`,
applying `A` and then `B` gives the same request as applying `B` alone, so the
last body option determines the body and the `Content-Type` entry; each of the
three options sets its own body and the `Content-Type` value that goes with
it. -/
theorem last_body_option_wins (env : Env) (r : Request) (h : GoMap String)
    (hh : r.header = some h) :
    (∀ A B : HTTPOption, BodyOption env A → BodyOption env B →
      ∃ rB, B r = some rB ∧ (A r).bind B = some rB) ∧
    (∀ body : AnyVal, WithJson env body r =
      some { r with
        body := some (NewBuffer (match env.Marshal body with
          | .ok b => some b
          | .error _ => none))
        header := some (h.insert "Content-Type" "application/json;charset=UTF-8") }) ∧
    (∀ body : Option (GoMap AnyVal), WithFromData env body r =
      some { r with
        body := some (NewReader (Map2Str env body))
        header := some
          (h.insert "Content-Type" "application/x-www-form-urlencoded;charset=UTF-8") }) ∧
    (∀ (boundary : String) (file : Option UploadFile) (fromData : Option (GoMap String)),
      WithMultipartFrom env boundary file fromData r =
        some { r with
          body := some ⟨multipartBody env boundary file fromData⟩
          header := some (h.insert "Content-Type" (env.FormDataContentType boundary)) }) ∧
    (∀ v : String, (h.insert "Content-Type" v).lookup "Content-Type" = some v) := by
  refine ⟨?_, ?_, ?_, ?_, fun v => AList.lookup_insert h⟩
  · intro A B hA hB
    rw [hA.overwrites hB r h hh]
    cases hB <;> simp [WithJson, WithFromData, WithMultipartFrom, setHeader, hh]
  · intro body; simp [WithJson, setHeader, hh]
  · intro body; simp [WithFromData, setHeader, hh]
  · intro boundary file fromData; simp [WithMultipartFrom, setHeader, hh]

/-- Witness of C11: a JSON body followed by a multipart body on a fresh request. -/
theorem last_body_option_wins_witness :
    ∃ rB, WithMultipartFrom sampleEnv "b1" none none (sampleRequest "http://x/y" 0) = some rB ∧
      (WithJson sampleEnv (.other jsonA1) (sampleRequest "http://x/y" 0)).bind
        (WithMultipartFrom sampleEnv "b1" none none) = some rB :=
  (last_body_option_wins sampleEnv (sampleRequest "http://x/y" 0) ∅ rfl).1
    (WithJson sampleEnv (.other jsonA1)) (WithMultipartFrom sampleEnv "b1" none none)
    (.withJson _) (.withMultipartFrom _ _ _)

/-! ## Building a request -/

theorem applyOptions_append (a b : List HTTPOption) :
    ∀ r : Request, (applyOptions r a).bind (fun r1 => applyOptions r1 b) =
      applyOptions r (a ++ b) := by
  induction a with
  | nil => intro r; rfl
  | cons o a ih =>
    intro r
    simp only [applyOptions, List.cons_append]
    cases o r with
    | none => rfl
    | some r1 => exact ih r1

/-- C12: `NewHttpRequest(m, url)` is the request with method `m`, URL `url`,
empty header and query mappings, retry count 0, no timeout, the default logger,
no body and no retained response; `NewHttpRequest(m, url, o_1, ..., o_k)`
applies the options to it in that order and equals
`NewHttpRequest(m, url).With(o_1, ..., o_k)`. `With()` with no options changes
nothing, `With` applies its first option and then the others, and
`r.With(a...).With(b...)` leaves the same request as `r.With(a..., b...)`. -/
theorem NewHttpRequest_and_With (m url : String) :
    NewHttpRequest m url [] =
      some { method := m, url := url, body := none, header := some ∅, query := some ∅,
             retry := 0, client := some ⟨0⟩, response := none, logger := some DefaultLog } ∧
    (∀ opt : List HTTPOption,
      NewHttpRequest m url opt = (NewHttpRequest m url []).bind fun r => r.With opt) ∧
    (∀ (o : HTTPOption) (opt : List HTTPOption),
      NewHttpRequest m url (o :: opt) =
        ((NewHttpRequest m url []).bind o).bind fun r => r.With opt) ∧
    (∀ r : Request, r.With [] = some r) ∧
    (∀ (r : Request) (o : HTTPOption) (opt : List HTTPOption),
      r.With (o :: opt) = (o r).bind fun r1 => r1.With opt) ∧
    (∀ (r : Request) (a b : List HTTPOption),
      (r.With a).bind (fun r1 => r1.With b) = r.With (a ++ b)) := by
  refine ⟨rfl, fun opt => rfl, fun o opt => rfl, fun r => rfl, fun r o opt => rfl, ?_⟩
  intro r a b
  exact applyOptions_append a b r

/-! ## The JSON body -/

/-- C15: for every value `v`, applying `WithJson(v)` to a request with a header
mapping returns the request with the header entry `Content-Type` set to
`application/json;charset=UTF-8` and reports no failure; when `json.Marshal`
succeeds the body is exactly the JSON encoding of `v`, and when it fails the
body is an empty byte stream and the header entry is still set. Every other
field is unchanged. -/
theorem WithJson_sets_body_and_header (env : Env) (r : Request) (h : GoMap String)
    (body : AnyVal) (hh : r.header = some h) :
    ∃ r1 h1 b1, WithJson env body r = some r1 ∧ r1.header = some h1 ∧ r1.body = some b1 ∧
      h1.lookup "Content-Type" = some "application/json;charset=UTF-8" ∧
      (∀ k, k ≠ "Content-Type" → h1.lookup k = h.lookup k) ∧
      (∀ b, env.Marshal body = .ok b → b1.unread = b) ∧
      (∀ e, env.Marshal body = .error e → b1.unread = "") ∧
      r1 = { r with body := some b1, header := some h1 } := by
  refine ⟨_, h.insert "Content-Type" "application/json;charset=UTF-8", _,
    by simp only [WithJson, setHeader, hh]; rfl, rfl, rfl, AList.lookup_insert h,
    fun k hk => AList.lookup_insert_ne hk, ?_, ?_, rfl⟩
  · intro b hb; simp [hb, NewBuffer]
  · intro e he; simp [he, NewBuffer]

/-! ## The query mapping -/

/-- C16: for every request and every two query mappings `q1` and `q2`,
applying `WithQuery(q1)` and then `WithQuery(q2)` leaves the query mapping of
the request equal to `q2` alone and every other field unchanged, which is what
`WithQuery(q2)` alone does. -/
theorem WithQuery_replaces (r : Request) (q1 q2 : Option (GoMap String)) :
    (WithQuery q1 r).bind (WithQuery q2) = some { r with query := q2 } ∧
      (WithQuery q1 r).bind (WithQuery q2) = WithQuery q2 r ∧
      ({ r with query := q2 } : Request).query = q2 :=
  ⟨rfl, rfl, rfl⟩

/-- Witness of C15: the JSON body of the object with member `a` on a POST
request to `http://x/y`, and a value `json.Marshal` rejects. -/
theorem WithJson_sets_body_and_header_witness :
    (∃ r1, WithJson sampleEnv (.other jsonA1) (sampleRequest "http://x/y" 0) = some r1 ∧
      r1.body = some ⟨jsonA1⟩ ∧
      buildRequest sampleEnv r1 =
        { Method := "POST", URL := "http://x/y",
          Header := [("Content-Type", ["application/json;charset=UTF-8"])],
          Body := some jsonA1 }) ∧
    (∃ r1 h1, WithJson sampleEnv (.float64 0) (sampleRequest "http://x/y" 0) = some r1 ∧
      r1.body = some ⟨""⟩ ∧ r1.header = some h1 ∧
      h1.lookup "Content-Type" = some "application/json;charset=UTF-8") := by
  constructor
  · obtain ⟨r1, h1, b1, hr, -, hb, -, -, hok, -, -⟩ :=
      WithJson_sets_body_and_header sampleEnv (sampleRequest "http://x/y" 0) ∅
        (.other jsonA1) rfl
    have hu : b1.unread = jsonA1 := hok jsonA1 rfl
    have hr0 : WithJson sampleEnv (.other jsonA1) (sampleRequest "http://x/y" 0) =
        some { sampleRequest "http://x/y" 0 with
          body := some ⟨jsonA1⟩
          header := some ((∅ : GoMap String).insert "Content-Type"
            "application/json;charset=UTF-8") } := rfl
    have hr1 := Option.some.inj (hr.symm.trans hr0)
    refine ⟨r1, hr, ?_, ?_⟩
    · rw [hb, ← hu]
    · rw [hr1]; decide
  · obtain ⟨r1, h1, b1, hr, hh1, hb, hct, -, -, herr, -⟩ :=
      WithJson_sets_body_and_header sampleEnv (sampleRequest "http://x/y" 0) ∅
        (.float64 0) rfl
    have hu : b1.unread = "" := herr _ rfl
    exact ⟨r1, h1, hr, by rw [hb, ← hu], hh1, hct⟩

/-! ## Options never remove the header mapping or the client -/

/-- C19: for every request built by `NewHttpRequest` with provided options, and
after every further sequence of provided options applied with `With`, no option
panics and the header mapping and the client are present; `WithQuery(nil)`
makes the query mapping nil, and an attempt on a request with a nil query
mapping does not panic and leaves the URL without added query parameters. -/
theorem options_keep_header_and_client (env : Env) (m url : String)
    (opt opt2 : List HTTPOption) (ho : ∀ o ∈ opt, ProvidedOption env o)
    (ho2 : ∀ o ∈ opt2, ProvidedOption env o) :
    (∃ r r2, NewHttpRequest m url opt = some r ∧ r.header ≠ none ∧ r.client ≠ none ∧
      r.With opt2 = some r2 ∧ r2.header ≠ none ∧ r2.client ≠ none ∧
      (∀ o, ProvidedOption env o → ∃ r3, o r2 = some r3) ∧
      (∃ r3, NewHttpRequest m url (opt ++ [WithQuery none]) = some r3 ∧ r3.query = none ∧
        (buildRequest env r3).URL = url ∧
        ∀ (tr : Transport) (i : Nat), ∃ a, doAttempt env tr i r3 = some a)) ∧
    (∀ r : Request, r.query = none → (buildRequest env r).URL = r.url) := by
  constructor
  · obtain ⟨r, hr, hh, hc, -⟩ := applyOptions_provided opt ho
      { method := m, url := url, body := none, header := some ∅, query := some ∅, retry := 0,
        client := some ⟨0⟩, response := none, logger := some DefaultLog } (by simp) (by simp)
    obtain ⟨r2, hr2, hh2, hc2, -⟩ := applyOptions_provided opt2 ho2 r hh hc
    refine ⟨r, r2, hr, hh, hc, hr2, hh2, hc2, ?_, ?_⟩
    · intro o hprov
      obtain ⟨r3, h3, -⟩ := hprov.preserves r2 hh2 hc2
      exact ⟨r3, h3⟩
    · have hcfg : ∃ c, r.client = some c ∧ r.url = url := by
        have hurl : ∀ (l : List HTTPOption), (∀ o ∈ l, ProvidedOption env o) →
            ∀ s s1 : Request, applyOptions s l = some s1 → s1.url = s.url := by
          intro l
          induction l with
          | nil => intro _ s s1 h; simp only [applyOptions, Option.some.injEq] at h; rw [h]
          | cons o l ih =>
            intro hl s s1 h
            simp only [applyOptions] at h
            cases hos : o s with
            | none => rw [hos] at h; simp at h
            | some s2 =>
              rw [hos] at h
              have h2 := ih (fun o1 h1 => hl o1 (List.mem_cons_of_mem _ h1)) s2 s1 h
              rw [h2]
              have hp := hl o (List.mem_cons_self _ _)
              cases hp <;>
                simp only [WithLog, WithQuery, WithTimeout, WithRetry, WithJson, WithFromData,
                  WithHeader, WithMultipartFrom, setHeader] at hos <;>
                (try split at hos) <;>
                simp only [Option.some.injEq, reduceCtorEq] at hos <;> rw [← hos]
        obtain ⟨c, hc1⟩ := Option.ne_none_iff_exists'.mp hc
        exact ⟨c, hc1, hurl opt ho _ r hr⟩
      obtain ⟨c, hc1, hurl⟩ := hcfg
      refine ⟨{ r with query := none }, ?_, rfl, ?_, ?_⟩
      · unfold NewHttpRequest
        rw [← applyOptions_append]
        simp only [hr, Option.some_bind]
        rfl
      · simp [buildRequest, buildURL, hurl]
      · intro tr i
        exact @doAttempt_isSome env tr i { r with query := none } c hc1
  · intro r hq
    simp [buildRequest, buildURL, hq]

/-- Witness of C19: a request built with a header and a timeout, then given a
JSON body and a nil query mapping. -/
theorem options_keep_header_and_client_witness :
    ∃ r r2, NewHttpRequest "GET" "http://x/y" [WithHeader "X" "1", WithTimeout 5] = some r ∧
      r.header ≠ none ∧ r.client ≠ none ∧
      r.With [WithJson sampleEnv (.other jsonA1), WithQuery none] = some r2 ∧
      r2.header ≠ none ∧ r2.client ≠ none ∧
      (∃ r3, NewHttpRequest "GET" "http://x/y"
          ([WithHeader "X" "1", WithTimeout 5] ++ [WithQuery none]) = some r3 ∧
        r3.query = none ∧ (buildRequest sampleEnv r3).URL = "http://x/y" ∧
        ∀ (tr : Transport) (i : Nat), ∃ a, doAttempt sampleEnv tr i r3 = some a) := by
  obtain ⟨⟨r, r2, h1, h2, h3, h4, h5, h6, -, h8⟩, -⟩ :=
    options_keep_header_and_client sampleEnv "GET" "http://x/y"
      [WithHeader "X" "1", WithTimeout 5] [WithJson sampleEnv (.other jsonA1), WithQuery none]
      (fun o ho => by
        simp only [List.mem_cons, List.mem_singleton, List.not_mem_nil, or_false] at ho
        rcases ho with rfl | rfl
        · exact .withHeader "X" "1"
        · exact .withTimeout 5)
      (fun o ho => by
        simp only [List.mem_cons, List.mem_singleton, List.not_mem_nil, or_false] at ho
        rcases ho with rfl | rfl
        · exact .withJson _
        · exact .withQuery none)
  exact ⟨r, r2, h1, h2, h3, h4, h5, h6, h8⟩

/-! ## The form encoding is not injective -/

/-- C18: `Map2Str` escapes neither keys nor values, so it is not injective: the
mappings with the one entry `a: "1&b=2"` and with the two entries `a: "1"`,
`b: "2"` are different and give the same body `a=1&b=2`; decoding that body
gives the pairs `a: 1`, `b: 2`, not the mapping with the one entry that was
encoded. -/
theorem Map2Str_not_injective (env : Env) :
    ambiguousForm ≠ plainForm ∧
      Map2Str env (some ambiguousForm) = Map2Str env (some plainForm) ∧
      Map2Str env (some ambiguousForm) = "a=1&b=2" ∧
      ParseQuery (Map2Str env (some ambiguousForm)) = some [("a", "1"), ("b", "2")] ∧
      ParseQuery (Map2Str env (some ambiguousForm)) ≠
        some (ambiguousForm.entries.map fun e => (e.1, ConvertString env e.2)) := by
  have h1 : Map2Str env (some ambiguousForm) = "a=1&b=2" := by
    simp only [Map2Str, ambiguousForm, AList.singleton_entries, List.map_cons, List.map_nil,
      ConvertString]
    decide
  have h2 : Map2Str env (some plainForm) = "a=1&b=2" := by
    have he : plainForm.entries =
        [⟨"a", AnyVal.string "1"⟩, ⟨"b", AnyVal.string "2"⟩] := by decide
    simp only [Map2Str, he, List.map_cons, List.map_nil, ConvertString]
    decide
  have hne : ambiguousForm ≠ plainForm := by
    intro h
    have hl := congrArg (fun m : GoMap AnyVal => m.entries.length) h
    revert hl
    decide
  refine ⟨hne, h1.trans h2.symm, h1, ?_, ?_⟩
  · rw [h1]; decide
  · rw [h1]
    simp only [ambiguousForm, AList.singleton_entries, List.map_cons, List.map_nil,
      ConvertString]
    decide

/-! ## Negative retry counts -/

theorem wrapInt64_succ (x : Int) : wrapInt64 (wrapInt64 x + 1) = wrapInt64 (x + 1) := by
  unfold wrapInt64
  omega

theorem wrapInt64_ne_of_lt (n : Int) (hneg : n < 0) (hmin : -(2 ^ 63) ≤ n) (j : Nat)
    (hj : (j : Int) < 2 ^ 64 + n) : wrapInt64 j ≠ n := by
  unfold wrapInt64
  omega

theorem wrapInt64_wraparound (n : Int) (hneg : n < 0) (hmin : -(2 ^ 63) ≤ n) :
    wrapInt64 (2 ^ 64 + n) = n := by
  unfold wrapInt64
  omega

theorem retryLoop_unroll_wrapped (env : Env) (tr : Transport) (r : Request) (l : Logger)
    (k : Nat) (hl : k = 0 ∨ r.logger = some l)
    (hfail : ∀ j < k, ∃ a, attemptAt env tr r j = some a ∧ a.err ≠ none)
    (hne : ∀ j < k, wrapInt64 j ≠ r.retry) (fuel : Nat) :
    retryLoop env tr (k + fuel) 0 0 r =
      (retryLoop env tr fuel k (wrapInt64 k) (stateAfter env tr r k)).map
        fun e => { e with trace := retryPrefixWrapped env tr r l k ++ e.trace } := by
  induction k generalizing fuel with
  | zero =>
    have h0 : wrapInt64 ((0 : Nat) : Int) = 0 := by decide
    simp only [Nat.zero_add, stateAfter, retryPrefixWrapped, List.nil_append, h0]
    cases retryLoop env tr fuel 0 0 r <;> rfl
  | succ k ih =>
    have hlog1 : r.logger = some l := by
      rcases hl with h | h
      · omega
      · exact h
    have h1 := ih (Or.inr hlog1) (fun j hj => hfail j (by omega))
      (fun j hj => hne j (by omega)) (fuel + 1)
    rw [show k + 1 + fuel = k + (fuel + 1) by omega, h1]
    obtain ⟨a, ha, herr⟩ := hfail k (by omega)
    have hcfg := (stateAfter_sameConfig env tr r k).trans (doAttempt_sameConfig ha)
    obtain ⟨-, hurl, -, -, hretry, -, hlog⟩ := hcfg
    rw [hlog1] at hlog
    have hst : stateAfter env tr r (k + 1) = a.req := by
      simp only [stateAfter]
      unfold attemptAt at ha
      rw [ha]
    have hsent : sentAt env tr r k = a.sent := by
      simp [sentAt, ha]
    have hw : wrapInt64 (wrapInt64 (k : Int) + 1) = wrapInt64 ((k : Int) + 1) :=
      wrapInt64_succ k
    unfold attemptAt at ha
    rw [retryLoop, ha]
    simp only [herr, if_false, hretry, hne k (by omega), hw, hst, hurl, hlog,
      retryPrefixWrapped, hsent]
    push_cast
    cases retryLoop env tr fuel (k + 1) (wrapInt64 ((k : Int) + 1)) a.req with
    | none => rfl
    | some e => simp

theorem attempts_retryPrefixWrapped (env : Env) (tr : Transport) (r : Request) (l : Logger)
    (k : Nat) : attempts (retryPrefixWrapped env tr r l k) = k := by
  induction k with
  | zero => rfl
  | succ k ih => rw [retryPrefixWrapped, attempts_append, ih]; rfl

theorem negative_retry_execution (env : Env) (tr : Transport) (r : Request) (c : Client)
    (l : Logger) (T : Nat) (hc : r.client = some c) (hl : r.logger = some l)
    (hneg : r.retry < 0) (hmin : -(2 ^ 63) ≤ r.retry)
    (hT : (T : Int) = 2 ^ 64 + r.retry) (hfail : ∀ i w, (tr i c w).Fails) :
    (∀ fuel, fuel ≤ T → r.DoHttpRequest env tr fuel = none) ∧
    (∀ fuel, T + 1 ≤ fuel → ∃ e err, r.DoHttpRequest env tr fuel = some e ∧
      e.out = .returned none (some err) ∧ attempts e.trace = T + 1) := by
  have hfails : ∀ j, ∃ a, attemptAt env tr r j = some a ∧ a.err ≠ none :=
    fun j => attemptAt_of_transport_fails hc hfail j
  have hne : ∀ j < T, wrapInt64 j ≠ r.retry := by
    intro j hj
    exact wrapInt64_ne_of_lt r.retry hneg hmin j (by rw [← hT]; exact_mod_cast hj)
  constructor
  · intro fuel hfuel
    have h := retryLoop_unroll_wrapped env tr r l fuel (Or.inr hl) (fun j _ => hfails j)
      (fun j hj => hne j (by omega)) 0
    simp only [Nat.add_zero] at h
    unfold Request.DoHttpRequest
    rw [h, retryLoop]
    rfl
  · intro fuel hfuel
    obtain ⟨f, rfl⟩ : ∃ f, fuel = T + (f + 1) := ⟨fuel - (T + 1), by omega⟩
    obtain ⟨a, ha, herr⟩ := hfails T
    obtain ⟨err, he⟩ := Option.ne_none_iff_exists'.mp herr
    have hres : a.res = none := doAttempt_res_none ha herr
    have hcfg := (stateAfter_sameConfig env tr r T).trans (doAttempt_sameConfig ha)
    have hterm : wrapInt64 (T : Int) = a.req.retry := by
      rw [hcfg.2.2.2.2.1, hT]
      exact wrapInt64_wraparound r.retry hneg hmin
    unfold Request.DoHttpRequest
    rw [retryLoop_unroll_wrapped env tr r l T (Or.inr hl) (fun j _ => hfails j) hne]
    unfold attemptAt at ha
    rw [retryLoop, ha]
    simp only [herr, if_false, hterm, if_true, Option.map_some']
    refine ⟨_, err, rfl, by simp [hres, he], ?_⟩
    simp only [attempts_append, attempts_retryPrefixWrapped]
    rfl

/-- C17 (amended): for a negative retry count `n` of a Go `int`, against a
transport whose attempts always fail. When the logger of the request is not
nil, the terminal test is not satisfied before the retry counter has wrapped
around: for every `j ≤ 2^64 + n` the execution is still running after `j`
attempts, so it performs more than `j` attempts; it returns, with a nil result
and the error of the last attempt, after exactly `2^64 + n + 1` attempts, when
the wrapped counter equals `n`. When the logger is nil, the execution ends
after one attempt: the log call of the first retry panics. -/
theorem negative_retry_runs_until_wraparound (env : Env) (tr : Transport) (r : Request)
    (c : Client) (l : Logger) (T : Nat) (hc : r.client = some c) (hneg : r.retry < 0)
    (hmin : -(2 ^ 63) ≤ r.retry) (hT : (T : Int) = 2 ^ 64 + r.retry)
    (hfail : ∀ i w, (tr i c w).Fails) :
    (r.logger = some l →
      (∀ j, j ≤ T → r.DoHttpRequest env tr j = none) ∧
      (∀ fuel, T + 1 ≤ fuel → ∃ e err, r.DoHttpRequest env tr fuel = some e ∧
        e.out = .returned none (some err) ∧ attempts e.trace = T + 1) ∧
      (∀ fuel e, r.DoHttpRequest env tr fuel = some e → T + 1 ≤ fuel ∧
        attempts e.trace = T + 1)) ∧
    (r.logger = none → ∀ fuel, 1 ≤ fuel →
      ∃ e, r.DoHttpRequest env tr fuel = some e ∧ e.out = .panicked ∧
        attempts e.trace = 1 ∧ logs e.trace = [] ∧ sleeps e.trace = []) := by
  constructor
  · intro hl
    obtain ⟨h1, h2⟩ := negative_retry_execution env tr r c l T hc hl hneg hmin hT hfail
    refine ⟨h1, h2, ?_⟩
    intro fuel e he
    have hfuel : T + 1 ≤ fuel := by
      by_contra hlt
      rw [h1 fuel (by omega)] at he
      exact Option.noConfusion he
    obtain ⟨e1, -, he1, -, hatt⟩ := h2 fuel hfuel
    rw [he] at he1
    rw [Option.some.inj he1]
    exact ⟨hfuel, hatt⟩
  · intro hl fuel hfuel
    obtain ⟨a, -, hrun⟩ := nil_logger_panics_of_transport_fails env tr r c hc hl
      (by omega) hfail fuel hfuel
    exact ⟨_, hrun, rfl, rfl, rfl, rfl⟩

/-- Witness of C17 (amended): retry count `-1` against a transport that always
fails, with the default logger and with a nil logger. -/
theorem negative_retry_runs_until_wraparound_witness :
    (sampleRequest "http://x/y" (-1)).DoHttpRequest sampleEnv alwaysFail 1000 = none ∧
    (sampleRequest "http://x/y" (-1)).DoHttpRequest sampleEnv alwaysFail
      18446744073709551615 = none ∧
    (∃ e err, (sampleRequest "http://x/y" (-1)).DoHttpRequest sampleEnv alwaysFail
        18446744073709551617 = some e ∧
      e.out = .returned none (some err) ∧ attempts e.trace = 18446744073709551615 + 1) ∧
    (∃ e, (nilLoggerRequest "http://x/y" (-1)).DoHttpRequest sampleEnv alwaysFail 1000 = some e ∧
      e.out = .panicked ∧ attempts e.trace = 1 ∧ logs e.trace = [] ∧ sleeps e.trace = []) := by
  obtain ⟨h1, h2, -⟩ := (negative_retry_runs_until_wraparound sampleEnv alwaysFail
    (sampleRequest "http://x/y" (-1)) ⟨0⟩ DefaultLog 18446744073709551615 rfl (by decide)
    (by decide) (by decide) (fun _ _ => trivial)).1 rfl
  exact ⟨h1 1000 (by norm_num), h1 18446744073709551615 le_rfl,
    h2 18446744073709551617 (by norm_num),
    (negative_retry_runs_until_wraparound sampleEnv alwaysFail
      (nilLoggerRequest "http://x/y" (-1)) ⟨0⟩ DefaultLog 18446744073709551615 rfl (by decide)
      (by decide) (by decide) (fun _ _ => trivial)).2 rfl 1000 (by norm_num)⟩

/-- Counterexample to C17 as stated, on two inputs. With retry count `-1` and
the default logger against a transport that always fails, `DoHttpRequest`
returns after `2^64` attempts, when the retry counter has wrapped around to
`-1`; it does not perform more than `2^64` attempts. With retry count `-1` and
the nil logger that `WithLog(nil)` stores, the execution ends after one
attempt. -/
theorem negative_retry_returns_after_wraparound :
    (∃ e err, (sampleRequest "http://x/y" (-1)).DoHttpRequest sampleEnv alwaysFail
        18446744073709551616 = some e ∧
      e.out = .returned none (some err) ∧ attempts e.trace = 18446744073709551616) ∧
    (∃ r e, NewHttpRequest "POST" "http://x/y" [WithLog none, WithRetry (-1)] = some r ∧
      r.DoHttpRequest sampleEnv alwaysFail 2 = some e ∧
      e.out = .panicked ∧ attempts e.trace = 1) :=
  ⟨(negative_retry_execution sampleEnv alwaysFail (sampleRequest "http://x/y" (-1)) ⟨0⟩
    DefaultLog 18446744073709551615 rfl rfl (by decide) (by decide) (by decide)
    (fun _ _ => trivial)).2 18446744073709551616 (by norm_num),
   ⟨_, _, rfl, rfl, by decide, by decide⟩⟩

/-! ## Decoding the form body -/

theorem intercalate_go_data (sep : String) (l : List String) :
    ∀ acc : String, (String.intercalate.go acc sep l).data =
      acc.data ++ (l.map String.data).foldr (fun x r => sep.data ++ (x ++ r)) [] := by
  induction l with
  | nil => intro acc; simp [String.intercalate.go]
  | cons a l ih =>
    intro acc
    rw [String.intercalate.go, ih]
    simp [String.data_append, List.append_assoc]

theorem intercalate_amp_data (l : List String) :
    ("&".intercalate l).data = joinWith '&' (l.map String.data) := by
  cases l with
  | nil => rfl
  | cons a l =>
    rw [String.intercalate, intercalate_go_data]
    rfl

theorem splitOnChar_ne_nil (sep : Char) (l : List Char) : splitOnChar sep l ≠ [] := by
  induction l with
  | nil => simp [splitOnChar]
  | cons c cs ih =>
    rw [splitOnChar]
    split
    · simp
    · split <;> simp

theorem splitOnChar_no_sep (sep : Char) (a : List Char) (ha : ∀ c ∈ a, c ≠ sep) :
    splitOnChar sep a = [a] := by
  induction a with
  | nil => rfl
  | cons c cs ih =>
    have hc : c ≠ sep := ha c (List.mem_cons_self _ _)
    rw [splitOnChar, if_neg hc, ih (fun x hx => ha x (List.mem_cons_of_mem _ hx))]

theorem splitOnChar_append_sep (sep : Char) (a t : List Char) (ha : ∀ c ∈ a, c ≠ sep) :
    splitOnChar sep (a ++ sep :: t) = a :: splitOnChar sep t := by
  induction a with
  | nil => simp [splitOnChar]
  | cons c cs ih =>
    have hc : c ≠ sep := ha c (List.mem_cons_self _ _)
    rw [List.cons_append, splitOnChar, if_neg hc,
      ih (fun x hx => ha x (List.mem_cons_of_mem _ hx))]

theorem splitOnChar_joinWith (sep : Char) (a : List Char) (rest : List (List Char))
    (h : ∀ seg ∈ a :: rest, ∀ c ∈ seg, c ≠ sep) :
    splitOnChar sep (joinWith sep (a :: rest)) = a :: rest := by
  induction rest generalizing a with
  | nil =>
    simp only [joinWith, List.foldr_nil, List.append_nil]
    exact splitOnChar_no_sep sep a (h a (List.mem_cons_self _ _))
  | cons b rest ih =>
    have hb := ih b (fun seg hseg => h seg (List.mem_cons_of_mem _ hseg))
    simp only [joinWith, List.foldr_cons] at hb ⊢
    rw [splitOnChar_append_sep sep a _ (h a (List.mem_cons_self _ _)), hb]

theorem mem_joinWith (sep : Char) (segs : List (List Char)) (c : Char)
    (hc : c ∈ joinWith sep segs) : c = sep ∨ ∃ seg ∈ segs, c ∈ seg := by
  cases segs with
  | nil => simp [joinWith] at hc
  | cons a rest =>
    simp only [joinWith, List.mem_append] at hc
    rcases hc with hc | hc
    · exact Or.inr ⟨a, List.mem_cons_self _ _, hc⟩
    · have : ∀ (l : List (List Char)),
          c ∈ l.foldr (fun x acc => sep :: (x ++ acc)) [] → c = sep ∨ ∃ seg ∈ l, c ∈ seg := by
        intro l
        induction l with
        | nil => intro h; simp at h
        | cons x l ih =>
          intro h
          simp only [List.foldr_cons, List.mem_cons, List.mem_append] at h
          rcases h with h | h | h
          · exact Or.inl h
          · exact Or.inr ⟨x, List.mem_cons_self _ _, h⟩
          · rcases ih h with h1 | ⟨seg, hseg, hcs⟩
            · exact Or.inl h1
            · exact Or.inr ⟨seg, List.mem_cons_of_mem _ hseg, hcs⟩
      rcases this rest hc with h1 | ⟨seg, hseg, hcs⟩
      · exact Or.inl h1
      · exact Or.inr ⟨seg, List.mem_cons_of_mem _ hseg, hcs⟩

theorem cutAt_pair (sep : Char) (k v : List Char) (hk : ∀ c ∈ k, c ≠ sep) :
    cutAt sep (k ++ sep :: v) = (k, v) := by
  induction k with
  | nil => simp [cutAt]
  | cons c cs ih =>
    have hc : c ≠ sep := hk c (List.mem_cons_self _ _)
    rw [List.cons_append, cutAt, if_neg hc, ih (fun x hx => hk x (List.mem_cons_of_mem _ hx))]

theorem isSpecial_false {c : Char} (h : isSpecial c = false) :
    c ≠ '&' ∧ c ≠ '=' ∧ c ≠ '%' ∧ c ≠ '+' ∧ c ≠ ';' := by
  simp only [isSpecial, Bool.or_eq_false_iff, decide_eq_false_iff_not] at h
  tauto

theorem pairChars_ne_amp (p : String × String)
    (hp : (∀ c ∈ p.1.data, isSpecial c = false) ∧ ∀ c ∈ p.2.data, isSpecial c = false) :
    ∀ c ∈ pairChars p, c ≠ '&' := by
  intro c hc
  simp only [pairChars, List.mem_append, List.mem_cons] at hc
  rcases hc with hc | hc | hc
  · exact (isSpecial_false (hp.1 c hc)).1
  · rw [hc]; decide
  · exact (isSpecial_false (hp.2 c hc)).1

theorem pairChars_data (p : String × String) : (p.1 ++ "=" ++ p.2).data = pairChars p := by
  simp [pairChars, String.data_append]

theorem ParseQuery_pairs (P : List (String × String))
    (hP : ∀ p ∈ P, (∀ c ∈ p.1.data, isSpecial c = false) ∧
      ∀ c ∈ p.2.data, isSpecial c = false) :
    ParseQuery ("&".intercalate (P.map fun p => p.1 ++ "=" ++ p.2)) = some P := by
  have hdata : ("&".intercalate (P.map fun p => p.1 ++ "=" ++ p.2)).data =
      joinWith '&' (P.map pairChars) := by
    rw [intercalate_amp_data, List.map_map]
    congr 1
    apply List.map_congr_left
    intro p _
    exact pairChars_data p
  have hany : (joinWith '&' (P.map pairChars)).any
      (fun c => c = '%' || c = '+' || c = ';') = false := by
    rw [List.any_eq_false]
    intro c hc
    rcases mem_joinWith '&' _ c hc with h | ⟨seg, hseg, hcs⟩
    · rw [h]; decide
    · obtain ⟨p, hp, rfl⟩ := List.mem_map.mp hseg
      simp only [pairChars, List.mem_append, List.mem_cons] at hcs
      rcases hcs with h | h | h
      · have := isSpecial_false ((hP p hp).1 c h)
        simp [this.2.2.1, this.2.2.2.1, this.2.2.2.2]
      · rw [h]; decide
      · have := isSpecial_false ((hP p hp).2 c h)
        simp [this.2.2.1, this.2.2.2.1, this.2.2.2.2]
  unfold ParseQuery
  rw [hdata, hany]
  simp only [Bool.false_eq_true, if_false, Option.some.injEq]
  have hsplit : (splitOnChar '&' (joinWith '&' (P.map pairChars))).filter
      (fun seg => seg ≠ []) = P.map pairChars := by
    cases P with
    | nil => simp [joinWith, splitOnChar]
    | cons p ps =>
      rw [List.map_cons, splitOnChar_joinWith, ← List.map_cons]
      · rw [List.filter_eq_self]
        intro seg hseg
        obtain ⟨q, _, rfl⟩ := List.mem_map.mp hseg
        simp [pairChars]
      · intro seg hseg c hc
        rw [← List.map_cons] at hseg
        obtain ⟨q, hq, rfl⟩ := List.mem_map.mp hseg
        exact pairChars_ne_amp q (hP q hq) c hc
  rw [hsplit, List.map_map]
  conv_rhs => rw [← List.map_id P]
  apply List.map_congr_left
  intro q hq
  have hk : ∀ c ∈ q.1.data, c ≠ '=' := fun c hc => (isSpecial_false ((hP q hq).1 c hc)).2.1
  simp only [Function.comp, pairChars, cutAt_pair '=' q.1.data q.2.data hk, id]

theorem Map2Str_eq (env : Env) (m : GoMap AnyVal) :
    Map2Str env (some m) =
      "&".intercalate ((m.entries.map fun e => (e.1, ConvertString env e.2)).map
        fun p => p.1 ++ "=" ++ p.2) := by
  simp only [Map2Str, List.map_map]
  rfl

theorem sampleForm_entries :
    sampleForm.entries = [⟨"a", AnyVal.int 1⟩, ⟨"b", AnyVal.string "x"⟩] := by decide

/-- C13: for every mapping in which no key and no converted value contains one
of the characters `&`, `=`, `%`, `+`, `;`, decoding `Map2Str(m)`, the body
`WithFromData(m)` sets, as urlencoded pairs yields exactly the pairs
`k -> ConvertString(m[k])`, with the keys of `m`, and for every other iteration
order of the mapping the same pairs in another order; for the mapping
`a: 1, b: "x"` the decoded pairs are `a: "1"`, `b: "x"`, and for the empty and the
nil mapping the body is the empty string. -/
theorem form_body_decodes (env : Env) :
    (∀ m : GoMap AnyVal,
      (∀ e ∈ m.entries, (∀ c ∈ e.1.data, isSpecial c = false) ∧
        ∀ c ∈ (ConvertString env e.2).data, isSpecial c = false) →
      ParseQuery (Map2Str env (some m)) =
          some (m.entries.map fun e => (e.1, ConvertString env e.2)) ∧
        (m.entries.map fun e => (e.1, ConvertString env e.2)).map Prod.fst = m.keys ∧
        ∀ m2 : GoMap AnyVal, m2.entries.Perm m.entries →
          ∃ d, ParseQuery (Map2Str env (some m2)) = some d ∧
            d.Perm (m.entries.map fun e => (e.1, ConvertString env e.2))) ∧
    ParseQuery (Map2Str env (some sampleForm)) = some [("a", "1"), ("b", "x")] ∧
    Map2Str env (some ∅) = "" ∧ Map2Str env none = "" ∧
    (∀ (r : Request) (h : GoMap String) (body : Option (GoMap AnyVal)), r.header = some h →
      ∃ r1, WithFromData env body r = some r1 ∧ r1.body = some ⟨Map2Str env body⟩) := by
  have hgen : ∀ m : GoMap AnyVal,
      (∀ e ∈ m.entries, (∀ c ∈ e.1.data, isSpecial c = false) ∧
        ∀ c ∈ (ConvertString env e.2).data, isSpecial c = false) →
      ParseQuery (Map2Str env (some m)) =
        some (m.entries.map fun e => (e.1, ConvertString env e.2)) := by
    intro m hm
    rw [Map2Str_eq]
    apply ParseQuery_pairs
    intro p hp
    obtain ⟨e, he, rfl⟩ := List.mem_map.mp hp
    exact hm e he
  refine ⟨?_, ?_, rfl, rfl, ?_⟩
  · intro m hm
    refine ⟨hgen m hm, by rw [List.map_map]; rfl, ?_⟩
    intro m2 hperm
    refine ⟨_, hgen m2 (fun e he => hm e (hperm.subset he)), hperm.map _⟩
  · have h := hgen sampleForm (by
      rw [sampleForm_entries]
      intro e he
      simp only [List.mem_cons, List.mem_singleton, List.not_mem_nil, or_false] at he
      rcases he with rfl | rfl <;>
        exact ⟨by decide, by simp only [ConvertString, Itoa]; decide⟩)
    rw [h, sampleForm_entries]
    rfl
  · intro r h body hh
    exact ⟨_, by simp only [WithFromData, setHeader, hh]; rfl, rfl⟩

/-- Witness of C13: the mapping `a: 1, b: "x"`. -/
theorem form_body_decodes_witness :
    ParseQuery (Map2Str sampleEnv (some sampleForm)) =
        some (sampleForm.entries.map fun e => (e.1, ConvertString sampleEnv e.2)) ∧
      (sampleForm.entries.map fun e => (e.1, ConvertString sampleEnv e.2)).map Prod.fst =
        sampleForm.keys ∧
      (∃ r1, WithFromData sampleEnv (some sampleForm) (sampleRequest "http://x/y" 0) =
          some r1 ∧
        r1.body = some ⟨Map2Str sampleEnv (some sampleForm)⟩) := by
  obtain ⟨hgen, -, -, -, hbody⟩ := form_body_decodes sampleEnv
  obtain ⟨h1, h2, -⟩ := hgen sampleForm (by
    rw [sampleForm_entries]
    intro e he
    simp only [List.mem_cons, List.mem_singleton, List.not_mem_nil, or_false] at he
    rcases he with rfl | rfl <;> exact ⟨by decide, by decide⟩)
  exact ⟨h1, h2, hbody (sampleRequest "http://x/y" 0) ∅ (some sampleForm) rfl⟩

/-! ## Decimal formatting -/

theorem digitVal_digitChar (d : Nat) (hd : d < 10) : digitVal (Nat.digitChar d) = some d := by
  interval_cases d <;> decide

theorem parseDigits_append (xs : List Char) (c : Char) :
    parseDigits (xs ++ [c]) =
      match parseDigits xs, digitVal c with
      | some a, some d => some (a * 10 + d)
      | _, _ => none := by
  simp [parseDigits, List.foldl_append]

theorem toDigitsCore_append (b : Nat) (f : Nat) :
    ∀ (n : Nat) (ds : List Char),
      Nat.toDigitsCore b f n ds = Nat.toDigitsCore b f n [] ++ ds := by
  induction f with
  | zero => intro n ds; simp [Nat.toDigitsCore]
  | succ f ih =>
    intro n ds
    simp only [Nat.toDigitsCore]
    split
    · simp
    · rw [ih (n / b) (Nat.digitChar (n % b) :: ds), ih (n / b) [Nat.digitChar (n % b)]]
      simp

theorem parseDigits_toDigitsCore (f : Nat) :
    ∀ n : Nat, n < f → parseDigits (Nat.toDigitsCore 10 f n []) = some n := by
  induction f with
  | zero => intro n hn; omega
  | succ f ih =>
    intro n hn
    simp only [Nat.toDigitsCore]
    split
    · next h0 =>
      have hlt : n < 10 := by omega
      have hmod : n % 10 = n := Nat.mod_eq_of_lt hlt
      rw [hmod]
      have := parseDigits_append [] (Nat.digitChar n)
      simp only [List.nil_append] at this
      rw [this, digitVal_digitChar n hlt]
      simp [parseDigits]
    · next h0 =>
      rw [toDigitsCore_append, parseDigits_append, ih (n / 10) (by omega),
        digitVal_digitChar (n % 10) (Nat.mod_lt _ (by norm_num))]
      simp only [Option.some.injEq]
      omega

theorem toDigits_ne_nil (n : Nat) : Nat.toDigits 10 n ≠ [] := by
  simp only [Nat.toDigits, Nat.toDigitsCore]
  split
  · simp
  · rw [toDigitsCore_append]; simp

theorem parseDigits_toDigits (n : Nat) : parseDigits (Nat.toDigits 10 n) = some n :=
  parseDigits_toDigitsCore (n + 1) n (Nat.lt_succ_self n)

theorem parseDigits_minus (ds : List Char) : parseDigits ('-' :: ds) = none := by
  have hnone : ∀ l : List Char,
      l.foldl
        (fun acc c =>
          match acc, digitVal c with
          | some a, some d => some (a * 10 + d)
          | _, _ => none) (none : Option Nat) = none := by
    intro l
    induction l with
    | nil => rfl
    | cons c l ih => simpa using ih
  simp only [parseDigits, List.foldl_cons]
  have h : digitVal '-' = none := by decide
  simp only [h]
  exact hnone ds

theorem parseDecimal_toString (i : Int) : parseDecimal (toString i) = some i := by
  cases i with
  | ofNat m =>
    have hdata : (toString (Int.ofNat m)).data = Nat.toDigits 10 m := rfl
    have hp := parseDigits_toDigits m
    have hne := toDigits_ne_nil m
    unfold parseDecimal
    rw [hdata]
    split
    · next h => exact absurd h hne
    · next ds h =>
      rw [h, parseDigits_minus] at hp
      exact Option.noConfusion hp
    · rw [hp]; rfl
  | negSucc m =>
    have hdata : (toString (Int.negSucc m)).data = '-' :: Nat.toDigits 10 (m + 1) := rfl
    have hp := parseDigits_toDigits (m + 1)
    have hne := toDigits_ne_nil (m + 1)
    unfold parseDecimal
    rw [hdata]
    simp only [hne, if_false, hp, Option.map_some']
    rfl

/-- C14: `ConvertString` returns a string unchanged; for every `int` and every
`int64` of the 64 bit range it returns the decimal formatting of the integer,
which parses back to the same value, also for negative values and for the
extremes of the range; and for a value of an unrecognized type (a bool, nil,
any other value) it returns the empty string. -/
theorem ConvertString_by_type (env : Env) :
    (∀ s : String, ConvertString env (.string s) = s) ∧
    (∀ i : Int, ConvertString env (.int i) = Itoa i ∧
      parseDecimal (ConvertString env (.int i)) = some i) ∧
    (∀ i : Int, InInt64 i → ConvertString env (.int64 i) = Itoa i ∧
      parseDecimal (ConvertString env (.int64 i)) = some i) ∧
    ConvertString env (.int (-42)) = "-42" ∧
    ConvertString env (.int64 9223372036854775807) = "9223372036854775807" ∧
    ConvertString env (.int64 (-9223372036854775808)) = "-9223372036854775808" ∧
    (∀ b : Bool, ConvertString env (.bool b) = "") ∧
    ConvertString env .null = "" ∧
    (∀ d : String, ConvertString env (.other d) = "") := by
  refine ⟨fun s => rfl, fun i => ⟨rfl, parseDecimal_toString i⟩, ?_, ?_, ?_, ?_,
    fun b => rfl, rfl, fun d => rfl⟩
  · intro i hi
    have hw : wrapInt64 i = i := wrapInt64_eq_self hi.1 hi.2
    have hc : ConvertString env (.int64 i) = Itoa i := by
      simp only [ConvertString, hw]
    rw [hc]
    exact ⟨rfl, parseDecimal_toString i⟩
  · simp only [ConvertString]
    decide
  · simp only [ConvertString]
    decide
  · simp only [ConvertString]
    decide

/-- Witness of C14: the smallest `int64`. -/
theorem ConvertString_by_type_witness :
    ConvertString sampleEnv (.int64 (-9223372036854775808)) = Itoa (-9223372036854775808) ∧
      parseDecimal (ConvertString sampleEnv (.int64 (-9223372036854775808))) =
        some (-9223372036854775808) :=
  (ConvertString_by_type sampleEnv).2.2.1 (-9223372036854775808) (by decide)

end Httpclient
